import Mathlib

/-!
Verification of the ClauseGuard policy-analysis pipeline
(`src/utils/browser.js`, with `MAX_TEXT_LENGTH` from `src/utils/constants.js`).

The JavaScript code is shallowly embedded: JavaScript values are the
inductive type `JSValue`, thrown exceptions are `Except JSErr`, and each
source function is translated operation by operation.  The module is an
ES module, so strict-mode semantics apply (assigning a property to a
primitive throws a `TypeError`).
-/

/-- A JavaScript value as reachable in this program (values produced by
`JSON.parse`, by object/array literals of the code, and `undefined`).
Numbers are represented exactly as `m * 10 ^ e` (`JSON` numbers are
decimal literals; no claim depends on floating-point rounding).
Arrays carry their element list plus any non-index expando properties.
Strings are modelled as sequences of code points (all inputs used in the
claims are ASCII, where code units and code points coincide).
-/
inductive JSValue where
  | undefined : JSValue
  | null : JSValue
  | bool : Bool → JSValue
  | num : Int → Int → JSValue
  | str : String → JSValue
  | arr : List JSValue → List (String × JSValue) → JSValue
  | obj : List (String × JSValue) → JSValue

/-- A thrown JavaScript exception, as distinguishable by this development:
`typeError` for runtime `TypeError`s (property access on `null`/`undefined`,
method call on a non-string, strict-mode write to a primitive),
`syntaxError` for `JSON.parse` failures, and `error` for `throw new
Error(msg)`; the payload of `error` is the message operand before string
coercion. -/
inductive JSErr where
  | typeError : String → JSErr
  | syntaxError : JSErr
  | error : JSValue → JSErr

/-- `true` exactly for `null` and `undefined` (the values on which property
access throws). -/
def isNullish : JSValue → Bool
  | .undefined => true
  | .null => true
  | _ => false

/-- JavaScript truthiness (`Boolean(v)`).  `NaN` is not constructible from
JSON input, so every number is falsy exactly when its mantissa is zero. -/
def jsTruthy : JSValue → Bool
  | .undefined => false
  | .null => false
  | .bool b => b
  | .num m _ => m ≠ 0
  | .str s => s ≠ ""
  | .arr _ _ => true
  | .obj _ => true

/-- The `typeof` operator (note `typeof null = "object"`). -/
def jsTypeof : JSValue → String
  | .undefined => "undefined"
  | .null => "object"
  | .bool _ => "boolean"
  | .num _ _ => "number"
  | .str _ => "string"
  | .arr _ _ => "object"
  | .obj _ => "object"

/-- `Array.isArray`. -/
def jsIsArray : JSValue → Bool
  | .arr _ _ => true
  | _ => false

/-- Value equality of two exact decimal numbers `m₁·10^e₁` and `m₂·10^e₂`. -/
def numEq (m₁ e₁ m₂ e₂ : Int) : Bool :=
  let d := min e₁ e₂
  m₁ * 10 ^ (e₁ - d).toNat == m₂ * 10 ^ (e₂ - d).toNat

/-- Strict comparison `m₁·10^e₁ > m₂·10^e₂`. -/
def numGt (m₁ e₁ m₂ e₂ : Int) : Bool :=
  let d := min e₁ e₂
  m₁ * 10 ^ (e₁ - d).toNat > m₂ * 10 ^ (e₂ - d).toNat

/-- JavaScript `===` / SameValueZero on the values reachable here.  Two
object or array values are compared by reference in JavaScript; every
object reaching a comparison site in this program is freshly produced by a
distinct `JSON.parse` or literal, so distinct occurrences are never the
same reference and the comparison is `false`. -/
def jsEq : JSValue → JSValue → Bool
  | .undefined, .undefined => true
  | .null, .null => true
  | .bool a, .bool b => a == b
  | .num m₁ e₁, .num m₂ e₂ => numEq m₁ e₁ m₂ e₂
  | .str a, .str b => a == b
  | _, _ => false

/-- `xs.indexOf(v)` on a list of JavaScript values (`-1` when absent). -/
def jsIndexOf (xs : List JSValue) (v : JSValue) : Int :=
  match xs.findIdx? (fun x => jsEq x v) with
  | some i => (i : Int)
  | none => -1

/-- Whether `s` is a canonical array-index string (`"0"`, `"1"`, …,
no leading zero except `"0"` itself). -/
def isIndexString (s : String) : Bool :=
  s.toList ≠ [] && s.toList.all Char.isDigit &&
    (s.toList = ['0'] || s.toList.headD '0' ≠ '0')

/-- The numeric value of a digit string. -/
def digitsToNat (s : String) : Nat :=
  s.toList.foldl (fun n c => n * 10 + (c.toNat - '0'.toNat)) 0

/-- First-match lookup in a property list. -/
def plookup (fields : List (String × JSValue)) (k : String) : Option JSValue :=
  match fields.find? (fun kv => kv.1 == k) with
  | some kv => some kv.2
  | none => none

/-- Property read `v[k]` for `v` not `null`/`undefined` (never throws):
objects look up their property list; arrays expose `length`, their indexed
elements, then expando properties; strings expose `length` and indexed
characters; other primitives are boxed and have no own properties. -/
def jsGetRaw : JSValue → String → JSValue
  | .obj fields, k => (plookup fields k).getD .undefined
  | .arr xs props, k =>
      if k == "length" then .num (xs.length : Int) 0
      else if isIndexString k && digitsToNat k < xs.length then
        xs.getD (digitsToNat k) .undefined
      else (plookup props k).getD .undefined
  | .str s, k =>
      if k == "length" then .num (s.length : Int) 0
      else if isIndexString k && digitsToNat k < s.length then
        .str (String.singleton (s.toList.getD (digitsToNat k) ' '))
      else .undefined
  | _, _ => .undefined

/-- Plain property read `v.k`: throws a `TypeError` when `v` is `null` or
`undefined`, otherwise `jsGetRaw`. -/
def jsGetField (v : JSValue) (k : String) : Except JSErr JSValue :=
  if isNullish v then .error (.typeError ("cannot read " ++ k ++ " of " ++ jsTypeof v))
  else .ok (jsGetRaw v k)

/-- Optional-chain read `v?.k`: `undefined` when `v` is `null`/`undefined`. -/
def jsOptGet (v : JSValue) (k : String) : JSValue :=
  if isNullish v then .undefined else jsGetRaw v k

/-- Overwrite the first binding of `k` in place, or append a new binding. -/
def pinsert (fields : List (String × JSValue)) (k : String) (v : JSValue) :
    List (String × JSValue) :=
  match fields with
  | [] => [(k, v)]
  | kv :: rest =>
      if kv.1 == k then (k, v) :: rest else kv :: pinsert rest k v

/-- Strict-mode property write `v[k] = w`: updates objects (and array
expando/index slots); throws a `TypeError` on primitives, `null` and
`undefined`. -/
def jsSetField (v : JSValue) (k : String) (w : JSValue) : Except JSErr JSValue :=
  match v with
  | .obj fields => .ok (.obj (pinsert fields k w))
  | .arr xs props =>
      if isIndexString k && digitsToNat k < xs.length then
        .ok (.arr (xs.set (digitsToNat k) w) props)
      else .ok (.arr xs (pinsert props k w))
  | v => .error (.typeError ("cannot set " ++ k ++ " on " ++ jsTypeof v))

/-- Logical OR `a || b`. -/
def jsOr (a b : JSValue) : JSValue :=
  if jsTruthy a then a else b

/-- Stable insertion into a sorted list (used for JavaScript's
integer-key ordering). -/
def insertSortedBy (le : α → α → Bool) (x : α) : List α → List α
  | [] => [x]
  | y :: ys => if le x y then x :: y :: ys else y :: insertSortedBy le x ys

/-- Stable insertion sort. -/
def insertionSortBy (le : α → α → Bool) : List α → List α
  | [] => []
  | x :: xs => insertSortedBy le x (insertionSortBy le xs)

/-- `Object.entries(v)` for the values reachable here.  Own enumerable
string keys in JavaScript order: integer-like keys first in ascending
numeric order, then the remaining string keys in insertion order.
Primitives have no own enumerable properties except strings, whose
characters are enumerated by index. -/
def jsEntries : JSValue → List (String × JSValue)
  | .obj fields =>
      let idx := insertionSortBy (fun a b => digitsToNat a.1 ≤ digitsToNat b.1)
        (fields.filter (fun kv => isIndexString kv.1))
      let rest := fields.filter (fun kv => !isIndexString kv.1)
      idx ++ rest
  | .arr xs props =>
      (xs.enum.map (fun p => (toString p.1, p.2))) ++
        (insertionSortBy (fun a b => digitsToNat a.1 ≤ digitsToNat b.1)
          (props.filter (fun kv => isIndexString kv.1)) ++
         props.filter (fun kv => !isIndexString kv.1))
  | .str s =>
      s.toList.enum.map (fun p => (toString p.1, .str (String.singleton p.2)))
  | _ => []

/-! ### A model of `JSON.parse` (ECMA-404 / ECMAScript `JSON.parse`). -/

/-- JSON insignificant whitespace (space, tab, line feed, carriage return). -/
def jsonWsChar (c : Char) : Bool :=
  c = ' ' || c = '\t' || c = '\n' || c = '\r'

/-- Skip JSON whitespace. -/
def skipJsonWs (cs : List Char) : List Char :=
  cs.dropWhile jsonWsChar

/-- Hexadecimal digit value. -/
def hexVal? (c : Char) : Option Nat :=
  if c.isDigit then some (c.toNat - '0'.toNat)
  else if 'a' ≤ c ∧ c ≤ 'f' then some (c.toNat - 'a'.toNat + 10)
  else if 'A' ≤ c ∧ c ≤ 'F' then some (c.toNat - 'A'.toNat + 10)
  else none

/-- Code point from four hex digits. -/
def hex4? (h₁ h₂ h₃ h₄ : Char) : Option Nat := do
  let a ← hexVal? h₁
  let b ← hexVal? h₂
  let c ← hexVal? h₃
  let d ← hexVal? h₄
  pure (((a * 16 + b) * 16 + c) * 16 + d)

/-- Body of a JSON string after the opening quote, decoded to UTF-16 code
units (JavaScript strings are sequences of code units; `\uXXXX` escapes can
denote surrogates).  Escape sequences follow the JSON grammar; unescaped
control characters are a syntax error. -/
def parseJsonUnits : List Char → Option (List Nat × List Char)
  | [] => none
  | '"' :: rest => some ([], rest)
  | '\\' :: 'u' :: h₁ :: h₂ :: h₃ :: h₄ :: rest => do
      let n ← hex4? h₁ h₂ h₃ h₄
      let (tl, rem) ← parseJsonUnits rest
      pure (n :: tl, rem)
  | '\\' :: e :: rest => do
      let c ← match e with
        | '"' => some '"'
        | '\\' => some '\\'
        | '/' => some '/'
        | 'b' => some '\x08'
        | 'f' => some '\x0c'
        | 'n' => some '\n'
        | 'r' => some '\r'
        | 't' => some '\t'
        | _ => none
      let (tl, rem) ← parseJsonUnits rest
      pure (c.toNat :: tl, rem)
  | c :: rest =>
      if c.toNat < 0x20 then none
      else do
        let (tl, rem) ← parseJsonUnits rest
        pure (c.toNat :: tl, rem)

/-- Recombine UTF-16 code units into code points: a high surrogate followed
by a low surrogate pairs into one supplementary code point.  A lone
surrogate has no code-point counterpart and degrades to `Char.ofNat`'s
fallback (no claim input contains one). -/
def surrogatesToChars : List Nat → List Char
  | [] => []
  | [u] => [Char.ofNat u]
  | u :: v :: rest =>
      if 0xD800 ≤ u ∧ u ≤ 0xDBFF then
        if 0xDC00 ≤ v ∧ v ≤ 0xDFFF then
          Char.ofNat (0x10000 + (u - 0xD800) * 0x400 + (v - 0xDC00)) ::
            surrogatesToChars rest
        else Char.ofNat u :: surrogatesToChars (v :: rest)
      else Char.ofNat u :: surrogatesToChars (v :: rest)

/-- A JSON string body: decoded code units, recombined into code points. -/
def parseJsonString (cs : List Char) : Option (List Char × List Char) :=
  (parseJsonUnits cs).map (fun p => (surrogatesToChars p.1, p.2))

/-- Numeric value of a digit list. -/
def natOfDigits (ds : List Char) : Nat :=
  ds.foldl (fun n c => n * 10 + (c.toNat - '0'.toNat)) 0

/-- JSON number literal: `-? int frac? exp?`, yielding the exact value
`m * 10 ^ e`. -/
def parseJsonNumber (cs : List Char) : Option ((Int × Int) × List Char) :=
  let (neg, cs₁) := match cs with
    | '-' :: rest => (true, rest)
    | _ => (false, cs)
  let (ds, cs₂) := cs₁.span Char.isDigit
  if ds = [] then none
  else if ds.length > 1 ∧ ds.headD '0' = '0' then none
  else
    let (fs, cs₃) := match cs₂ with
      | '.' :: rest => rest.span Char.isDigit
      | _ => ([], cs₂)
    if cs₂ ≠ cs₃ ∧ fs = [] then none
    else
      let parseExp : Option (Int × List Char) := match cs₃ with
        | 'e' :: rest | 'E' :: rest =>
            let (esign, rest₁) := match rest with
              | '+' :: r => ((1 : Int), r)
              | '-' :: r => ((-1 : Int), r)
              | _ => ((1 : Int), rest)
            let (es, rest₂) := rest₁.span Char.isDigit
            if es = [] then none else some (esign * (natOfDigits es : Int), rest₂)
        | _ => some (0, cs₃)
      match parseExp with
      | none => none
      | some (x, cs₄) =>
          let mag : Int := (natOfDigits (ds ++ fs) : Int)
          some ((if neg then -mag else mag, x - (fs.length : Int)), cs₄)

/-- Whether another member/element may start here: on the first iteration
the input continues as is, later a separating comma (plus whitespace) is
required. -/
def jsonCommaStep (first : Bool) (cs : List Char) : Option (List Char) :=
  if first then some cs
  else match cs with
    | ',' :: rest => some (skipJsonWs rest)
    | _ => none

mutual

/-- JSON value (fuel-indexed total recursion; the driver supplies fuel
larger than the input length, which every recursive call strictly
consumes). -/
def parseJsonValue : Nat → List Char → Option (JSValue × List Char)
  | 0, _ => none
  | _ + 1, 'n' :: 'u' :: 'l' :: 'l' :: rest => some (.null, rest)
  | _ + 1, 't' :: 'r' :: 'u' :: 'e' :: rest => some (.bool true, rest)
  | _ + 1, 'f' :: 'a' :: 'l' :: 's' :: 'e' :: rest => some (.bool false, rest)
  | _ + 1, '"' :: rest =>
      (parseJsonString rest).map (fun p => (.str ⟨p.1⟩, p.2))
  | fuel + 1, '{' :: rest => parseJsonMembers fuel (skipJsonWs rest) [] true
  | fuel + 1, '[' :: rest => parseJsonElems fuel (skipJsonWs rest) [] true
  | _ + 1, cs =>
      (parseJsonNumber cs).map (fun p => (.num p.1.1 p.1.2, p.2))

/-- Members of a JSON object after the opening brace (duplicate keys
overwrite the earlier value in place, as `JSON.parse` does).  On every
iteration but the first, a comma must separate members
(`jsonCommaStep`). -/
def parseJsonMembers (fuel : Nat) (cs : List Char)
    (acc : List (String × JSValue)) (first : Bool) :
    Option (JSValue × List Char) :=
  match fuel with
  | 0 => none
  | fuel + 1 =>
    match cs with
    | '}' :: rest => some (.obj acc, rest)
    | _ =>
      match jsonCommaStep first cs with
      | some ('"' :: cs₁) => do
          let (key, cs₂) ← parseJsonString cs₁
          match skipJsonWs cs₂ with
          | ':' :: cs₃ => do
              let (v, cs₄) ← parseJsonValue fuel (skipJsonWs cs₃)
              parseJsonMembers fuel (skipJsonWs cs₄) (pinsert acc ⟨key⟩ v) false
          | _ => none
      | _ => none

/-- Elements of a JSON array after the opening bracket. -/
def parseJsonElems (fuel : Nat) (cs : List Char)
    (acc : List JSValue) (first : Bool) :
    Option (JSValue × List Char) :=
  match fuel with
  | 0 => none
  | fuel + 1 =>
    match cs with
    | ']' :: rest => some (.arr acc.reverse [], rest)
    | _ =>
      match jsonCommaStep first cs with
      | some cs₁ => do
          let (v, cs₂) ← parseJsonValue fuel cs₁
          parseJsonElems fuel (skipJsonWs cs₂) (v :: acc) false
      | none => none

end

/-- `JSON.parse` on a code-point sequence: `none` models a thrown
`SyntaxError`. -/
def jsonParseChars (cs : List Char) : Option JSValue :=
  match parseJsonValue (2 * cs.length + 2) (skipJsonWs cs) with
  | some (v, rest) => if skipJsonWs rest = [] then some v else none
  | none => none

/-- `JSON.parse(s)`: `none` models a thrown `SyntaxError`. -/
def jsonParse (s : String) : Option JSValue :=
  jsonParseChars s.toList

/-! ### String utilities used by `extractJSON` (`src/utils/browser.js:486`). -/

/-- The ECMAScript `WhiteSpace ∪ LineTerminator` class: the characters
trimmed by `String.prototype.trim` and matched by `\s` in a regular
expression. -/
def jsWsChar (c : Char) : Bool :=
  c = '\t' || c = '\n' || c = '\x0b' || c = '\x0c' || c = '\r' || c = ' ' ||
  c = '\u00A0' || c = '\u1680' || ('\u2000' ≤ c && c ≤ '\u200A') ||
  c = '\u2028' || c = '\u2029' || c = '\u202F' || c = '\u205F' ||
  c = '\u3000' || c = '\uFEFF'

/-- `text.trim()`. -/
def jsTrimChars (cs : List Char) : List Char :=
  ((cs.dropWhile jsWsChar).reverse.dropWhile jsWsChar).reverse

/-- `clean.replace(/^```(?:json)?\s*/, '').replace(/\s*```$/, '')`, applied
once the caller has checked `clean.startsWith('```')`: drop the opening
backticks, an optional `json` tag and following whitespace; then drop a
closing backtick fence (with the whitespace immediately before it) if the
string ends with one. -/
def stripCodeFences (cs : List Char) : List Char :=
  let afterTicks := cs.drop 3
  let afterTag :=
    if afterTicks.take 4 = "json".toList then afterTicks.drop 4 else afterTicks
  let lead := afterTag.dropWhile jsWsChar
  if lead.reverse.take 3 = "```".toList.reverse then
    ((lead.reverse.drop 3).dropWhile jsWsChar).reverse
  else lead

/-- `s.indexOf(c)` (`-1` when absent). -/
def indexOfChar (cs : List Char) (c : Char) : Int :=
  match cs.findIdx? (· = c) with
  | some i => (i : Int)
  | none => -1

/-- `s.lastIndexOf(c)` (`-1` when absent). -/
def lastIndexOfChar (cs : List Char) (c : Char) : Int :=
  match cs.reverse.findIdx? (· = c) with
  | some i => (cs.length : Int) - 1 - (i : Int)
  | none => -1

/-- `s.substring(a, b)`: both arguments are clamped to `[0, length]` and
swapped when `a > b`. -/
def jsSubstringChars (cs : List Char) (a b : Int) : List Char :=
  let n : Int := (cs.length : Int)
  let a' := (max 0 (min a n)).toNat
  let b' := (max 0 (min b n)).toNat
  (cs.drop (min a' b')).take (max a' b' - min a' b')

/-! ### The LLM-reply normalizer (`parseAnalysisResponse`,
`src/utils/browser.js:447-479`, with `extractJSON`, lines 486-503). -/

/-- `extractJSON(text)` (`src/utils/browser.js:486`): trim, strip a
markdown code fence, cut to the outermost brace pair when both braces
occur, then `JSON.parse`. -/
def extractJSON (text : String) : Except JSErr JSValue :=
  let clean := jsTrimChars text.toList
  let clean :=
    if clean.take 3 = "```".toList then stripCodeFences clean else clean
  let start := indexOfChar clean '\x7b'
  let stop := lastIndexOfChar clean '\x7d'
  let clean :=
    if start ≠ -1 ∧ stop ≠ -1 then jsSubstringChars clean start (stop + 1)
    else clean
  match jsonParseChars clean with
  | some v => .ok v
  | none => .error .syntaxError

/-- `validGrades` (`src/utils/browser.js:452`). -/
def validGrades : List String := ["A", "B", "C", "D", "F"]

/-- The fallback summary used when the parsed summary is too short
(`src/utils/browser.js:462`). -/
def analysisFallbackSummary : String :=
  "Analysis complete. Review the findings below."

/-- The sentinel result returned on any failure path of the normalizer
(`src/utils/browser.js:470-478`). -/
def sentinelResult : JSValue :=
  .obj [("grade", .str "?"),
        ("summary",
         .str "Unable to parse the analysis. Check your API settings and try again."),
        ("dirtyDozen", .obj []),
        ("highlights", .obj [("good", .arr [] []), ("bad", .arr [] [])]),
        ("criticalQuotes", .arr [] [])]

/-- `v.toUpperCase()`: a method of strings only; on any non-string value
the member is `undefined` and the call throws a `TypeError`.  (The grades
compared by the code are ASCII, where `String.toUpper` agrees with the
ECMAScript conversion.) -/
def jsToUpperCase (v : JSValue) : Except JSErr String :=
  match v with
  | .str s => .ok ⟨s.toList.map Char.toUpper⟩
  | v => .error (.typeError ("toUpperCase is not a function on " ++ jsTypeof v))

/-- ECMAScript `ToNumber` restricted to the value shapes that can reach
the comparison `parsed.summary?.length > 10`: `none` models `NaN`.
String numeric literals are modelled as optionally-signed decimal
literals; the exotic string forms (`Infinity`, hex/octal/binary) also make
the comparison with `10` well defined but are mapped to `NaN` here, and a
one-element array is coerced through its single element — in every case
the derived `> 10` verdict agrees with ECMAScript on the values this
program can produce. -/
def jsToNumber? : JSValue → Option (Int × Int)
  | .undefined => none
  | .null => some (0, 0)
  | .bool b => some (if b then 1 else 0, 0)
  | .num m e => some (m, e)
  | .str s =>
      let cs := s.toList.dropWhile jsWsChar
      let cs := (cs.reverse.dropWhile jsWsChar).reverse
      if cs = [] then some (0, 0)
      else
        match parseJsonNumber cs with
        | some (me, []) => some me
        | _ =>
          match cs with
          | '+' :: rest =>
              match parseJsonNumber rest with
              | some (me, []) => some me
              | _ => none
          | _ => none
  | .arr [] _ => some (0, 0)
  | .arr [x] _ =>
      match x with
      | .arr _ _ => none
      | .obj _ => none
      | x => jsToNumber? x
  | .arr _ _ => none
  | .obj _ => none

/-- The comparison `v > 10` (`NaN` compares `false`). -/
def jsGtTen (v : JSValue) : Bool :=
  match jsToNumber? v with
  | some (m, e) => numGt m e 10 0
  | none => false

/-- Line 449 of `src/utils/browser.js`:
`typeof response === 'string' ? extractJSON(response) : response`. -/
def parsedValueOf (response : JSValue) : Except JSErr JSValue :=
  match response with
  | .str s => extractJSON s
  | v => Except.ok v

/-- Lines 451-457 of `src/utils/browser.js`: grade validation.  The
condition `!parsed.grade || !validGrades.includes(parsed.grade.toUpperCase())`
short-circuits: `toUpperCase` is only called (and can only throw) on a
truthy grade.  The mutation `parsed.grade = …` is modelled by rebinding. -/
def gradeNormalize (parsed : JSValue) : Except JSErr JSValue := do
  let g ← jsGetField parsed "grade"
  let gradeInvalid ←
    if !jsTruthy g then pure true
    else do
      let gu ← jsToUpperCase g
      pure (!(validGrades.contains gu))
  if gradeInvalid then jsSetField parsed "grade" (.str "C")
  else do
    let gu ← jsToUpperCase g
    jsSetField parsed "grade" (.str gu)

/-- Lines 459-469 of `src/utils/browser.js`: assembly of the returned
result object from the grade-normalized `parsed`. -/
def assembleResult (parsed : JSValue) : Except JSErr JSValue := do
  let gradeOut ← jsGetField parsed "grade"
  let summary ← jsGetField parsed "summary"
  let summaryOut :=
    if jsGtTen (jsOptGet summary "length") then summary
    else .str analysisFallbackSummary
  let dd ← jsGetField parsed "dirtyDozen"
  let ddOut := if jsTypeof dd == "object" then dd else .obj []
  let hl ← jsGetField parsed "highlights"
  let goodV := jsOptGet hl "good"
  let goodOut := if jsIsArray goodV then goodV else .arr [] []
  let badV := jsOptGet hl "bad"
  let badOut := if jsIsArray badV then badV else .arr [] []
  let cq ← jsGetField parsed "criticalQuotes"
  let cqOut := if jsIsArray cq then cq else .arr [] []
  pure (.obj [("grade", gradeOut), ("summary", summaryOut),
              ("dirtyDozen", ddOut),
              ("highlights", .obj [("good", goodOut), ("bad", badOut)]),
              ("criticalQuotes", cqOut)])

/-- Lines 451-469 of `src/utils/browser.js`: grade normalization followed
by result assembly. -/
def parseAnalysisSteps (parsed₀ : JSValue) : Except JSErr JSValue := do
  let parsed ← gradeNormalize parsed₀
  assembleResult parsed

/-- The body of `parseAnalysisResponse` (`src/utils/browser.js:448-469`):
everything inside the `try`. -/
def parseAnalysisBody (response : JSValue) : Except JSErr JSValue := do
  let parsed ← parsedValueOf response
  parseAnalysisSteps parsed

/-- `parseAnalysisResponse(response)` (`src/utils/browser.js:447-479`):
the `try`/`catch` wrapper — any exception in the body yields the sentinel
result. -/
def parseAnalysisResponse (response : JSValue) : JSValue :=
  match parseAnalysisBody response with
  | .ok r => r
  | .error _ => sentinelResult

/-! ### Document chunking (`analyzeInChunks`, `src/utils/browser.js:328-348`,
with `MAX_TEXT_LENGTH` from `src/utils/constants.js:137`). -/

/-- `MAX_TEXT_LENGTH` (`src/utils/constants.js:137`): the document-length
threshold above which `analyzePolicyWithLLM` switches to the chunked
path (`src/utils/browser.js:312`). -/
def MAX_TEXT_LENGTH : Nat := 50000

/-- `chunkSize = MAX_TEXT_LENGTH - 5000` (`src/utils/browser.js:329`). -/
def chunkSize : Nat := MAX_TEXT_LENGTH - 5000

/-- The chunk-collection loop of `analyzeInChunks`
(`src/utils/browser.js:330-334`):
`for (let i = 0; i < len; i += chunkSize) chunks.push(text.slice(i, i + chunkSize))`,
written as the equivalent recursion on the text remaining after the
current slice (`slice(i, i + chunkSize)` takes at most `chunkSize`
code units starting at `i`). -/
def chunkText : List Char → List (List Char)
  | [] => []
  | c :: rest =>
      (c :: rest).take chunkSize :: chunkText ((c :: rest).drop chunkSize)
termination_by cs => cs.length
decreasing_by simp only [List.length_drop, List.length_cons, chunkSize, MAX_TEXT_LENGTH]; omega

/-! ### The HTTP response handling of `callLLM`
(`src/utils/browser.js:401-440`). -/

/-- The transport response as `callLLM` observes it: the success flag and
status of `fetch`'s `Response`, and the raw body text that `.json()`
parses. -/
structure HttpResponse where
  ok : Bool
  status : Nat
  bodyText : String

/-- `HTTP_ERROR_MESSAGES` (`src/utils/browser.js:270-279`); indexing with
any other status yields `undefined`. -/
def HTTP_ERROR_MESSAGES (status : Nat) : JSValue :=
  if status = 400 then .str "Bad request - check your API endpoint and model name"
  else if status = 401 then .str "Invalid API key - please check your API key in settings"
  else if status = 403 then .str "Access denied - your API key may not have permission for this model"
  else if status = 404 then .str "Not found - check your API endpoint URL"
  else if status = 429 then .str "Rate limit exceeded - please wait a moment and try again"
  else if status = 500 then .str "Server error - the API service is having issues"
  else if status = 502 then .str "Bad gateway - the API service is temporarily unavailable"
  else if status = 503 then .str "Service unavailable - the API service is temporarily down"
  else .undefined

/-- The response handling of `callLLM` (`src/utils/browser.js:425-439`),
from `if (!response.ok)` on.  On a non-success status the error body is
parsed with `response.json().catch(() => ({}))` — an unparseable body
becomes `{}` — and the thrown `Error`'s message operand is
`errorData.error?.message || errorData.message ||
HTTP_ERROR_MESSAGES[status] || "Request failed (status)"`.  On success the
body is parsed (a parse failure now propagates) and the reply text is
extracted from the chat-completion shape, then the candidate shape, with
`''` as the final fallback. -/
def callLLMResponse (resp : HttpResponse) : Except JSErr JSValue :=
  if !resp.ok then do
    let errorData := (jsonParse resp.bodyText).getD (.obj [])
    let errField ← jsGetField errorData "error"
    let m₁ := jsOptGet errField "message"
    let m₂ ← jsGetField errorData "message"
    let msg := jsOr (jsOr (jsOr m₁ m₂) (HTTP_ERROR_MESSAGES resp.status))
      (.str ("Request failed (" ++ toString resp.status ++ ")"))
    Except.error (.error msg)
  else do
    let data ← match jsonParse resp.bodyText with
      | some v => Except.ok v
      | none => Except.error .syntaxError
    let ch ← jsGetField data "choices"
    let v₁ := jsOptGet (jsOptGet (jsOptGet ch "0") "message") "content"
    if jsTruthy v₁ then pure v₁
    else do
      let ca ← jsGetField data "candidates"
      let v₂ := jsOptGet (jsOptGet (jsOptGet (jsOptGet
        (jsOptGet ca "0") "content") "parts") "0") "text"
      pure (if jsTruthy v₂ then v₂ else .str "")

/-! ### Merging chunk results (`mergeChunkResults`,
`src/utils/browser.js:355-392`). -/

/-- `gradeOrder` (`src/utils/browser.js:356`). -/
def gradeOrder : List JSValue := [.str "A", .str "B", .str "C", .str "D", .str "F"]

/-- `statusOrder` (`src/utils/browser.js:357`). -/
def statusOrder : List JSValue :=
  [.str "safe", .str "unknown", .str "warning", .str "danger"]

/-- The `reduce` computing the worst grade (`src/utils/browser.js:360-364`). -/
def worstGradeFold (results : List JSValue) : Except JSErr JSValue :=
  results.foldlM (fun worst r => do
      let g ← jsGetField r "grade"
      pure (if jsIndexOf gradeOrder g > jsIndexOf gradeOrder worst then g
            else worst))
    (.str "A")

/-- The dirty-dozen merge (`src/utils/browser.js:367-375`): for each
`[key, value]` of `Object.entries(result.dirtyDozen || {})`, insert when
`!existing` (note: falsiness, and `value.status` is then not read thanks
to `||` short-circuiting), else replace on a strictly greater
`statusOrder` index. -/
def mergeDirtyDozen (results : List JSValue) :
    Except JSErr (List (String × JSValue)) :=
  results.foldlM (fun acc r => do
      let dd ← jsGetField r "dirtyDozen"
      (jsEntries (jsOr dd (.obj []))).foldlM (fun acc kv => do
          let existing := (plookup acc kv.1).getD .undefined
          if !jsTruthy existing then pure (pinsert acc kv.1 kv.2)
          else do
            let vs ← jsGetField kv.2 "status"
            let es ← jsGetField existing "status"
            pure (if jsIndexOf statusOrder vs > jsIndexOf statusOrder es then
                    pinsert acc kv.1 kv.2
                  else acc))
        acc)
    []

/-- How `flatMap` treats one callback result: a returned array is
flattened one level, any other value contributes itself. -/
def flatMapPart (v : JSValue) : List JSValue :=
  match v with
  | .arr xs _ => xs
  | v => [v]

/-- One callback evaluation of `results.flatMap(r => r.highlights?.good || [])`
(`src/utils/browser.js:378`), and its `bad` twin (line 379). -/
def hlOf (k : String) (r : JSValue) : Except JSErr (List JSValue) := do
  let hl ← jsGetField r "highlights"
  pure (flatMapPart (jsOr (jsOptGet hl k) (.arr [] [])))

/-- One callback evaluation of
`results.flatMap(r => r.criticalQuotes || [])` (`src/utils/browser.js:380`). -/
def quotesOf (r : JSValue) : Except JSErr (List JSValue) := do
  let cq ← jsGetField r "criticalQuotes"
  pure (flatMapPart (jsOr cq (.arr [] [])))

/-- `[...new Set(xs)]`: duplicates removed under SameValueZero (`jsEq`),
keeping first occurrences in order. -/
def jsSetDedup (xs : List JSValue) : List JSValue :=
  xs.foldl (fun acc x => if acc.any (fun y => jsEq y x) then acc else acc ++ [x])
    []

/-- `mergeChunkResults(results)` (`src/utils/browser.js:355-392`). -/
def mergeChunkResults (results : List JSValue) : Except JSErr JSValue := do
  let worstGrade ← worstGradeFold results
  let mergedDirtyDozen ← mergeDirtyDozen results
  let goods ← results.mapM (hlOf "good")
  let allGood := jsSetDedup goods.flatten
  let bads ← results.mapM (hlOf "bad")
  let allBad := jsSetDedup bads.flatten
  let quoteLists ← results.mapM quotesOf
  let allQuotes := quoteLists.flatten
  let summary := jsOr (jsOptGet (results.headD .undefined) "summary")
    (.str "Analysis complete.")
  pure (.obj [("grade", worstGrade), ("summary", summary),
              ("dirtyDozen", .obj mergedDirtyDozen),
              ("highlights", .obj [("good", .arr (allGood.take 5) []),
                                   ("bad", .arr (allBad.take 10) [])]),
              ("criticalQuotes", .arr (allQuotes.take 5) [])])

/-! ### Pure counterparts of the merge stages.  Under the safety
hypotheses below no operation of `mergeChunkResults` throws, and the
`Except`-valued folds agree with these pure folds. -/

/-- Pure step of the worst-grade `reduce` (valid for non-nullish `r`). -/
def worstGradeStep (worst r : JSValue) : JSValue :=
  if jsIndexOf gradeOrder (jsGetRaw r "grade") > jsIndexOf gradeOrder worst then
    jsGetRaw r "grade"
  else worst

/-- Pure worst-grade fold. -/
def worstGradePure (results : List JSValue) : JSValue :=
  results.foldl worstGradeStep (.str "A")

/-- The dirty-dozen entry list a result contributes
(`Object.entries(result.dirtyDozen || {})`, valid for non-nullish `r`). -/
def ddEntriesOf (r : JSValue) : List (String × JSValue) :=
  jsEntries (jsOr (jsGetRaw r "dirtyDozen") (.obj []))

/-- The `statusOrder` index of a finding's `status` (valid for non-nullish
findings). -/
def statusIdx (f : JSValue) : Int :=
  jsIndexOf statusOrder (jsGetRaw f "status")

/-- Pure step of the dirty-dozen merge (valid when the incoming finding is
non-nullish). -/
def mergeDDStep (acc : List (String × JSValue)) (kv : String × JSValue) :
    List (String × JSValue) :=
  let existing := (plookup acc kv.1).getD .undefined
  if !jsTruthy existing then pinsert acc kv.1 kv.2
  else if statusIdx kv.2 > statusIdx existing then pinsert acc kv.1 kv.2
  else acc

/-- Pure dirty-dozen merge. -/
def mergeDDPure (results : List JSValue) : List (String × JSValue) :=
  (results.flatMap ddEntriesOf).foldl mergeDDStep []

/-- Pure highlight extraction (valid for non-nullish `r`). -/
def hlPure (k : String) (r : JSValue) : List JSValue :=
  flatMapPart (jsOr (jsOptGet (jsGetRaw r "highlights") k) (.arr [] []))

/-- Pure critical-quote extraction (valid for non-nullish `r`). -/
def quotesPure (r : JSValue) : List JSValue :=
  flatMapPart (jsOr (jsGetRaw r "criticalQuotes") (.arr [] []))

/-- Pure assembly of the merged result. -/
def mergePure (results : List JSValue) : JSValue :=
  .obj [("grade", worstGradePure results),
        ("summary", jsOr (jsOptGet (results.headD .undefined) "summary")
          (.str "Analysis complete.")),
        ("dirtyDozen", .obj (mergeDDPure results)),
        ("highlights",
         .obj [("good", .arr ((jsSetDedup (results.flatMap (hlPure "good"))).take 5) []),
               ("bad", .arr ((jsSetDedup (results.flatMap (hlPure "bad"))).take 10) [])]),
        ("criticalQuotes", .arr ((results.flatMap quotesPure).take 5) [])]

/-- Safety of one result for the merge: the result itself is not
`null`/`undefined` and no finding it contributes is `null`/`undefined`
(property reads on findings are then defined; a stored `existing` finding
is only dereferenced when truthy, hence never throws). -/
def resultSafe (r : JSValue) : Bool :=
  !isNullish r && (ddEntriesOf r).all (fun kv => !isNullish kv.2)

/-! ### Spec-side definitions, used to state the merge claims
independently of the merge implementation. -/

/-- Spec-side: remove duplicates, keeping the first occurrence of each
element in order. -/
def dedupFirst {α : Type} [DecidableEq α] : List α → List α
  | [] => []
  | x :: xs => x :: dedupFirst (xs.filter (· ≠ x))
termination_by xs => xs.length
decreasing_by
  exact Nat.lt_succ_of_le (List.length_filter_le _ _)

/-- The findings contributed for one category id, in chunk order (each
result contributes the entries of its `dirtyDozen`). -/
def keyFindings (results : List JSValue) (k : String) : List JSValue :=
  (results.flatMap ddEntriesOf).filterMap
    (fun kv => if kv.1 = k then some kv.2 else none)

/-- Spec-side severity selection step: keep the incoming finding only on a
strictly higher `statusOrder` index. -/
def selStep (o : Option JSValue) (f : JSValue) : Option JSValue :=
  match o with
  | none => some f
  | some ex => if statusIdx f > statusIdx ex then some f else o

/-- Spec-side severity selection over a finding list. -/
def selectFinding (o : Option JSValue) (fs : List JSValue) : Option JSValue :=
  fs.foldl selStep o

/-! ## Theorems -/

theorem jsGetField_ok (v : JSValue) (k : String) (h : isNullish v = false) :
    jsGetField v k = .ok (jsGetRaw v k) := by
  simp [jsGetField, h]

theorem plookup_cons (kv : String × JSValue) (fs : List (String × JSValue))
    (k : String) :
    plookup (kv :: fs) k = if kv.1 == k then some kv.2 else plookup fs k := by
  by_cases h : kv.1 == k <;> simp [plookup, List.find?, h]

theorem plookup_pinsert_self (fs : List (String × JSValue)) (k : String)
    (v : JSValue) : plookup (pinsert fs k v) k = some v := by
  induction fs with
  | nil => simp [pinsert, plookup, List.find?]
  | cons kv rest ih =>
      by_cases h : kv.1 == k
      · simp [pinsert, h, plookup, List.find?]
      · simp [pinsert, h, plookup_cons, ih]

theorem plookup_pinsert_ne (fs : List (String × JSValue)) (k k' : String)
    (v : JSValue) (h : (k == k') = false) :
    plookup (pinsert fs k v) k' = plookup fs k' := by
  induction fs with
  | nil => simp [pinsert, plookup, List.find?, h]
  | cons kv rest ih =>
      by_cases hkv : kv.1 == k
      · have : (kv.1 == k') = false := by
          have h1 : kv.1 = k := by simpa using hkv
          simpa [h1] using h
        simp [pinsert, hkv, plookup_cons, this, h]
      · simp [pinsert, hkv, plookup_cons, ih]

/-- C1: for every input (string or object) the normalizer
`parseAnalysisResponse` is a total function (it is defined for every
`JSValue`), and whenever its `try`-body raises — malformed JSON,
non-object input, or any other exception path — the result is exactly the
sentinel (`grade '?'`, the fixed "unable to parse" summary, empty
`dirtyDozen`, empty highlight lists, empty `criticalQuotes`), never a
partially validated result; in particular the spec's three malformed
strings all yield the sentinel. -/
theorem claim1_normalizer_failure_sentinel :
    (∀ (v : JSValue) (e : JSErr), parseAnalysisBody v = Except.error e →
      parseAnalysisResponse v = sentinelResult) ∧
    parseAnalysisResponse (.str "not json at all") = sentinelResult ∧
    parseAnalysisResponse (.str "") = sentinelResult ∧
    parseAnalysisResponse (.str "```not\x7bclosed") = sentinelResult := by
  refine ⟨fun v e h => ?_, rfl, rfl, rfl⟩
  simp [parseAnalysisResponse, h]

/-- Witness for C1 at the concrete input `null`: the body throws (reading
`parsed.grade` of `null`), and the result is the sentinel. -/
theorem claim1_witness :
    parseAnalysisBody JSValue.null =
      Except.error (JSErr.typeError "cannot read grade of object") ∧
    parseAnalysisResponse JSValue.null = sentinelResult :=
  ⟨rfl, claim1_normalizer_failure_sentinel.1 JSValue.null _ rfl⟩

/-- C10: the failure sentinel is not a fixed point of the normalizer:
normalizing the sentinel again forces the unrecognized grade `'?'` to
`'C'` and leaves every other field unchanged (its summary is longer than
10 characters and its map/list fields pass validation). -/
theorem claim10_sentinel_not_fixed_point :
    parseAnalysisResponse sentinelResult =
      .obj [("grade", .str "C"),
            ("summary",
             .str "Unable to parse the analysis. Check your API settings and try again."),
            ("dirtyDozen", .obj []),
            ("highlights", .obj [("good", .arr [] []), ("bad", .arr [] [])]),
            ("criticalQuotes", .arr [] [])] ∧
    jsGetRaw (parseAnalysisResponse sentinelResult) "grade" = .str "C" :=
  ⟨rfl, rfl⟩

/-- C4 counterexample: the reply `'{"grade": 5}'` parses successfully
(to the object `{grade: 5}`), yet the normalizer yields the sentinel with
grade `'?'` — not `'C'` — because the truthy non-string grade `5` makes
`parsed.grade.toUpperCase()` throw.  This refutes the claim's "including
when it is not a string" and "never yields grade '?'" for successfully
parsed replies. -/
theorem claim4_counterexample :
    extractJSON "\x7b\"grade\": 5\x7d" =
      Except.ok (JSValue.obj [("grade", JSValue.num 5 0)]) ∧
    parseAnalysisResponse (.str "\x7b\"grade\": 5\x7d") = sentinelResult ∧
    jsGetRaw sentinelResult "grade" = .str "?" :=
  ⟨rfl, rfl, rfl⟩

/-- C9 counterexample: the normalizer does not validate `status` fields
inside `dirtyDozen` — it keeps the map verbatim whenever
`typeof parsed.dirtyDozen === 'object'`.  A reply whose finding has
status `"bogus"` produces an output finding with status `"bogus"`,
outside `{safe, warning, danger, unknown}`. -/
theorem claim9_counterexample :
    jsGetRaw (jsGetRaw (parseAnalysisResponse
        (.obj [("grade", .str "A"),
               ("summary", .str "A summary long enough to keep."),
               ("dirtyDozen",
                .obj [("data_sale", .obj [("status", .str "bogus")])])]))
        "dirtyDozen") "data_sale" = .obj [("status", .str "bogus")] ∧
    ("bogus" ∈ ["safe", "warning", "danger", "unknown"]) = False :=
  ⟨rfl, by simp⟩

theorem chunkText_nil : chunkText [] = [] := by
  simp [chunkText]

theorem chunkText_ne (cs : List Char) (h : cs ≠ []) :
    chunkText cs = cs.take chunkSize :: chunkText (cs.drop chunkSize) := by
  match cs, h with
  | c :: rest, _ => simp [chunkText]

theorem chunkText_flatten (cs : List Char) : (chunkText cs).flatten = cs := by
  induction cs using chunkText.induct with
  | case1 => simp [chunkText]
  | case2 c rest ih =>
      rw [chunkText_ne _ (by simp)]
      simp [ih]

theorem chunkText_mem (cs : List Char) :
    ∀ chunk ∈ chunkText cs, chunk ≠ [] ∧ chunk.length ≤ chunkSize := by
  induction cs using chunkText.induct with
  | case1 => simp [chunkText]
  | case2 c rest ih =>
      rw [chunkText_ne _ (by simp)]
      intro chunk hm
      rcases List.mem_cons.mp hm with h | h
      · subst h
        refine ⟨?_, List.length_take_le _ _⟩
        simp [List.take_eq_nil_iff, chunkSize, MAX_TEXT_LENGTH]
      · exact ih chunk h

theorem chunkText_count (cs : List Char) :
    (chunkText cs).length = (cs.length + 44999) / 45000 := by
  have hcs : chunkSize = 45000 := rfl
  induction cs using chunkText.induct with
  | case1 => simp [chunkText]
  | case2 c rest ih =>
      rw [chunkText_ne _ (by simp)]
      simp only [List.length_cons, ih]
      simp only [List.length_drop, hcs, List.length_cons]
      omega

theorem chunkText_example :
    (chunkText (List.replicate 120000 'a')).map List.length =
      [45000, 45000, 30000] := by
  have hne : ∀ n : Nat, 0 < n → List.replicate n 'a' ≠ [] :=
    fun n hn => List.ne_nil_of_length_pos (by rw [List.length_replicate]; exact hn)
  have h1 : (List.replicate 120000 'a').take chunkSize =
      List.replicate 45000 'a' := by
    rw [List.take_replicate]; norm_num [chunkSize, MAX_TEXT_LENGTH]
  have h2 : (List.replicate 120000 'a').drop chunkSize =
      List.replicate 75000 'a' := by
    rw [List.drop_replicate]; norm_num [chunkSize, MAX_TEXT_LENGTH]
  have h3 : (List.replicate 75000 'a').take chunkSize =
      List.replicate 45000 'a' := by
    rw [List.take_replicate]; norm_num [chunkSize, MAX_TEXT_LENGTH]
  have h4 : (List.replicate 75000 'a').drop chunkSize =
      List.replicate 30000 'a' := by
    rw [List.drop_replicate]; norm_num [chunkSize, MAX_TEXT_LENGTH]
  have h5 : (List.replicate 30000 'a').take chunkSize =
      List.replicate 30000 'a' := by
    rw [List.take_replicate]; norm_num [chunkSize, MAX_TEXT_LENGTH]
  have h6 : (List.replicate 30000 'a').drop chunkSize = ([] : List Char) := by
    rw [List.drop_replicate]; norm_num [chunkSize, MAX_TEXT_LENGTH]
  rw [chunkText_ne _ (hne 120000 (by norm_num)), h1, h2,
    chunkText_ne _ (hne 75000 (by norm_num)), h3, h4,
    chunkText_ne _ (hne 30000 (by norm_num)), h5, h6, chunkText_nil]
  simp only [List.map_cons, List.map_nil, List.length_replicate]

/-- C2: for every text longer than the threshold `MAX_TEXT_LENGTH = 50000`
the chunking loop of `analyzeInChunks` produces contiguous,
non-overlapping, non-empty slices in original order — their concatenation
is exactly the original text — each of length at most
`45000 = 50000 - 5000`, and the number of chunks is
`⌈length / 45000⌉ = (length + 44999) / 45000`; in particular a text of
length 120000 yields 3 chunks of sizes 45000, 45000, 30000. -/
theorem claim2_chunking_roundtrip :
    (∀ text : List Char, text.length > MAX_TEXT_LENGTH →
      (chunkText text).flatten = text ∧
      (∀ chunk ∈ chunkText text, chunk ≠ [] ∧ chunk.length ≤ 45000) ∧
      (chunkText text).length = (text.length + 44999) / 45000) ∧
    (chunkText (List.replicate 120000 'a')).map List.length =
      [45000, 45000, 30000] := by
  refine ⟨fun text _ => ⟨chunkText_flatten text, ?_, chunkText_count text⟩,
    chunkText_example⟩
  intro chunk hm
  exact chunkText_mem text chunk hm

/-- Witness for C2 at a concrete text of length 50001 (just above the
threshold): the hypothesis holds and the chunking properties follow. -/
theorem claim2_witness :
    (List.replicate 50001 'a').length > MAX_TEXT_LENGTH ∧
    ((chunkText (List.replicate 50001 'a')).flatten =
        List.replicate 50001 'a' ∧
      (∀ chunk ∈ chunkText (List.replicate 50001 'a'),
        chunk ≠ [] ∧ chunk.length ≤ 45000) ∧
      (chunkText (List.replicate 50001 'a')).length =
        ((List.replicate 50001 'a').length + 44999) / 45000) :=
  ⟨by simp only [List.length_replicate, MAX_TEXT_LENGTH]; norm_num,
   claim2_chunking_roundtrip.1 _
     (by simp only [List.length_replicate, MAX_TEXT_LENGTH]; norm_num)⟩

theorem jsTruthy_not_nullish (v : JSValue) (h : jsTruthy v = true) :
    isNullish v = false := by
  cases v <;> simp_all [jsTruthy, isNullish]

theorem resultSafe_not_nullish (r : JSValue) (h : resultSafe r = true) :
    isNullish r = false := by
  have := (Bool.and_eq_true _ _).mp h
  simpa using this.1

theorem resultSafe_findings (r : JSValue) (h : resultSafe r = true) :
    ∀ kv ∈ ddEntriesOf r, isNullish kv.2 = false := by
  have := (Bool.and_eq_true _ _).mp h
  intro kv hkv
  have h2 := (List.all_eq_true.mp this.2) kv hkv
  simpa using h2

theorem worstGradeFold_ok_aux (results : List JSValue) (w : JSValue)
    (h : ∀ r ∈ results, isNullish r = false) :
    results.foldlM (fun worst r => do
        let g ← jsGetField r "grade"
        pure (if jsIndexOf gradeOrder g > jsIndexOf gradeOrder worst then g
              else worst))
      w = Except.ok (results.foldl worstGradeStep w) := by
  induction results generalizing w with
  | nil => rfl
  | cons r rs ih =>
      have hr : isNullish r = false := h r (List.mem_cons_self r rs)
      have hstep : (do
          let g ← jsGetField r "grade"
          pure (if jsIndexOf gradeOrder g > jsIndexOf gradeOrder w then g
                else w) : Except JSErr JSValue) =
          Except.ok (worstGradeStep w r) := by
        rw [jsGetField_ok r _ hr]; rfl
      rw [List.foldlM_cons, hstep, List.foldl_cons]
      exact ih (worstGradeStep w r) (fun x hx => h x (List.mem_cons_of_mem _ hx))

theorem worstGradeFold_ok (results : List JSValue)
    (h : ∀ r ∈ results, isNullish r = false) :
    worstGradeFold results = Except.ok (worstGradePure results) :=
  worstGradeFold_ok_aux results (.str "A") h

theorem ddInner_ok (es : List (String × JSValue))
    (acc : List (String × JSValue))
    (hes : ∀ kv ∈ es, isNullish kv.2 = false) :
    es.foldlM (fun acc kv => do
        let existing := (plookup acc kv.1).getD .undefined
        if !jsTruthy existing then pure (pinsert acc kv.1 kv.2)
        else do
          let vs ← jsGetField kv.2 "status"
          let es ← jsGetField existing "status"
          pure (if jsIndexOf statusOrder vs > jsIndexOf statusOrder es then
                  pinsert acc kv.1 kv.2
                else acc))
      acc = Except.ok (es.foldl mergeDDStep acc) := by
  induction es generalizing acc with
  | nil => rfl
  | cons kv rest ih =>
      have hkv : isNullish kv.2 = false := hes kv (List.mem_cons_self kv rest)
      have hstep : (do
          let existing := (plookup acc kv.1).getD .undefined
          if !jsTruthy existing then pure (pinsert acc kv.1 kv.2)
          else do
            let vs ← jsGetField kv.2 "status"
            let es ← jsGetField existing "status"
            pure (if jsIndexOf statusOrder vs > jsIndexOf statusOrder es then
                    pinsert acc kv.1 kv.2
                  else acc) : Except JSErr (List (String × JSValue))) =
          Except.ok (mergeDDStep acc kv) := by
        by_cases ht : jsTruthy ((plookup acc kv.1).getD .undefined) = true
        · have hex : isNullish ((plookup acc kv.1).getD .undefined) = false :=
            jsTruthy_not_nullish _ ht
          simp only [ht, Bool.not_true, Bool.false_eq_true, if_false,
            jsGetField_ok _ _ hkv, jsGetField_ok _ _ hex]
          simp [mergeDDStep, ht, statusIdx]
          rfl
        · have ht' : jsTruthy ((plookup acc kv.1).getD .undefined) = false := by
            simpa using ht
          simp [mergeDDStep, ht']
          rfl
      rw [List.foldlM_cons, hstep, List.foldl_cons]
      exact ih (mergeDDStep acc kv)
        (fun x hx => hes x (List.mem_cons_of_mem _ hx))

theorem mergeDirtyDozen_ok_aux (results : List JSValue)
    (acc : List (String × JSValue))
    (h : ∀ r ∈ results, resultSafe r = true) :
    results.foldlM (fun acc r => do
        let dd ← jsGetField r "dirtyDozen"
        (jsEntries (jsOr dd (.obj []))).foldlM (fun acc kv => do
            let existing := (plookup acc kv.1).getD .undefined
            if !jsTruthy existing then pure (pinsert acc kv.1 kv.2)
            else do
              let vs ← jsGetField kv.2 "status"
              let es ← jsGetField existing "status"
              pure (if jsIndexOf statusOrder vs > jsIndexOf statusOrder es then
                      pinsert acc kv.1 kv.2
                    else acc))
          acc)
      acc =
      Except.ok (results.foldl
        (fun acc r => (ddEntriesOf r).foldl mergeDDStep acc) acc) := by
  induction results generalizing acc with
  | nil => rfl
  | cons r rs ih =>
      have hr := h r (List.mem_cons_self r rs)
      have hstep : (do
          let dd ← jsGetField r "dirtyDozen"
          (jsEntries (jsOr dd (.obj []))).foldlM (fun acc kv => do
              let existing := (plookup acc kv.1).getD .undefined
              if !jsTruthy existing then pure (pinsert acc kv.1 kv.2)
              else do
                let vs ← jsGetField kv.2 "status"
                let es ← jsGetField existing "status"
                pure (if jsIndexOf statusOrder vs >
                        jsIndexOf statusOrder es then
                        pinsert acc kv.1 kv.2
                      else acc))
            acc : Except JSErr (List (String × JSValue))) =
          Except.ok ((ddEntriesOf r).foldl mergeDDStep acc) := by
        rw [jsGetField_ok _ _ (resultSafe_not_nullish r hr)]
        show (jsEntries (jsOr (jsGetRaw r "dirtyDozen") (.obj []))).foldlM _
          acc = _
        exact ddInner_ok _ acc (resultSafe_findings r hr)
      rw [List.foldlM_cons, hstep, List.foldl_cons]
      exact ih _ (fun x hx => h x (List.mem_cons_of_mem _ hx))

theorem foldl_flatMap_general {α β γ : Type} (g : α → List β) (f : γ → β → γ)
    (b : γ) (xs : List α) :
    (xs.flatMap g).foldl f b = xs.foldl (fun b x => (g x).foldl f b) b := by
  induction xs generalizing b with
  | nil => rfl
  | cons x xs ih => simp [List.flatMap_cons, List.foldl_append, ih]

theorem mergeDirtyDozen_ok (results : List JSValue)
    (h : ∀ r ∈ results, resultSafe r = true) :
    mergeDirtyDozen results = Except.ok (mergeDDPure results) := by
  rw [show mergeDDPure results =
    results.foldl (fun acc r => (ddEntriesOf r).foldl mergeDDStep acc) [] from
    foldl_flatMap_general ddEntriesOf mergeDDStep [] results]
  exact mergeDirtyDozen_ok_aux results [] h

theorem hlOf_ok (k : String) (r : JSValue) (h : isNullish r = false) :
    hlOf k r = Except.ok (hlPure k r) := by
  unfold hlOf hlPure
  rw [jsGetField_ok _ _ h]
  rfl

theorem quotesOf_ok (r : JSValue) (h : isNullish r = false) :
    quotesOf r = Except.ok (quotesPure r) := by
  unfold quotesOf quotesPure
  rw [jsGetField_ok _ _ h]
  rfl

theorem mapM_hlOf_ok (k : String) (results : List JSValue)
    (h : ∀ r ∈ results, isNullish r = false) :
    results.mapM (hlOf k) = Except.ok (results.map (hlPure k)) := by
  induction results with
  | nil => rfl
  | cons r rs ih =>
      rw [List.mapM_cons, hlOf_ok k r (h r (List.mem_cons_self r rs)),
        ih (fun x hx => h x (List.mem_cons_of_mem _ hx))]
      rfl

theorem mapM_quotesOf_ok (results : List JSValue)
    (h : ∀ r ∈ results, isNullish r = false) :
    results.mapM quotesOf = Except.ok (results.map quotesPure) := by
  induction results with
  | nil => rfl
  | cons r rs ih =>
      rw [List.mapM_cons, quotesOf_ok r (h r (List.mem_cons_self r rs)),
        ih (fun x hx => h x (List.mem_cons_of_mem _ hx))]
      rfl

theorem mergeChunkResults_ok (results : List JSValue)
    (h : ∀ r ∈ results, resultSafe r = true) :
    mergeChunkResults results = Except.ok (mergePure results) := by
  have hn : ∀ r ∈ results, isNullish r = false :=
    fun r hr => resultSafe_not_nullish r (h r hr)
  unfold mergeChunkResults
  rw [worstGradeFold_ok results hn, mergeDirtyDozen_ok results h,
    mapM_hlOf_ok "good" results hn, mapM_hlOf_ok "bad" results hn,
    mapM_quotesOf_ok results hn]
  simp [mergePure, List.flatMap_def, worstGradePure]
  rfl

theorem worstGradeStep_cases (w r : JSValue) :
    worstGradeStep w r = w ∨ worstGradeStep w r = jsGetRaw r "grade" := by
  unfold worstGradeStep
  split
  · right; rfl
  · left; rfl

theorem worstGradeStep_ge_left (w r : JSValue) :
    jsIndexOf gradeOrder w ≤ jsIndexOf gradeOrder (worstGradeStep w r) := by
  unfold worstGradeStep
  split
  · omega
  · omega

theorem worstGradeStep_ge_right (w r : JSValue) :
    jsIndexOf gradeOrder (jsGetRaw r "grade") ≤
      jsIndexOf gradeOrder (worstGradeStep w r) := by
  unfold worstGradeStep
  split
  · omega
  · omega

theorem worstGradeFoldl_mem (results : List JSValue) (w : JSValue) :
    results.foldl worstGradeStep w = w ∨
    ∃ r ∈ results, results.foldl worstGradeStep w = jsGetRaw r "grade" := by
  induction results generalizing w with
  | nil => left; rfl
  | cons r rs ih =>
      rw [List.foldl_cons]
      rcases ih (worstGradeStep w r) with h | ⟨x, hx, h⟩
      · rcases worstGradeStep_cases w r with h2 | h2
        · left; rw [h, h2]
        · right; exact ⟨r, List.mem_cons_self r rs, by rw [h, h2]⟩
      · right; exact ⟨x, List.mem_cons_of_mem _ hx, h⟩

theorem worstGradeFoldl_ge (results : List JSValue) (w : JSValue) :
    jsIndexOf gradeOrder w ≤
      jsIndexOf gradeOrder (results.foldl worstGradeStep w) ∧
    ∀ r ∈ results, jsIndexOf gradeOrder (jsGetRaw r "grade") ≤
      jsIndexOf gradeOrder (results.foldl worstGradeStep w) := by
  induction results generalizing w with
  | nil => exact ⟨le_refl _, by simp⟩
  | cons r rs ih =>
      rw [List.foldl_cons]
      obtain ⟨ih1, ih2⟩ := ih (worstGradeStep w r)
      refine ⟨le_trans (worstGradeStep_ge_left w r) ih1, fun x hx => ?_⟩
      rcases List.mem_cons.mp hx with h | h
      · subst h
        exact le_trans (worstGradeStep_ge_right w x) ih1
      · exact ih2 x h

theorem gradeIdx_A : jsIndexOf gradeOrder (.str "A") = 0 := rfl

theorem valid_grade_le_zero (g : String) (hg : g ∈ validGrades)
    (hle : jsIndexOf gradeOrder (.str g) ≤ 0) : g = "A" := by
  simp only [validGrades, List.mem_cons, List.not_mem_nil, or_false] at hg
  rcases hg with h | h | h | h | h <;> subst h
  · rfl
  · exact absurd hle (by decide)
  · exact absurd hle (by decide)
  · exact absurd hle (by decide)
  · exact absurd hle (by decide)

theorem worstGradeFoldl_all_unrecognized (results : List JSValue)
    (h : ∀ r ∈ results, jsIndexOf gradeOrder (jsGetRaw r "grade") = -1) :
    results.foldl worstGradeStep (.str "A") = .str "A" := by
  induction results with
  | nil => rfl
  | cons r rs ih =>
      rw [List.foldl_cons]
      have hr := h r (List.mem_cons_self r rs)
      have hstep : worstGradeStep (.str "A") r = .str "A" := by
        unfold worstGradeStep
        rw [hr, gradeIdx_A]
        norm_num
      rw [hstep]
      exact ih (fun x hx => h x (List.mem_cons_of_mem _ hx))

theorem mergePure_grade (results : List JSValue) :
    jsGetRaw (mergePure results) "grade" = worstGradePure results := rfl

/-- C3: for every non-empty list of merge-safe results whose grades are
all in `[A,B,C,D,F]`, `mergeChunkResults` succeeds and returns the grade
with the maximum index in the severity order `[A,B,C,D,F]` (it is one of
the input grades and bounds all of them); and since the scan's initial
accumulator is `'A'`, a list whose grades are all unrecognized or missing
(`indexOf` is `-1`) merges to grade `'A'`; e.g. merging grades `A` and
`D` yields `D`. -/
theorem claim3_merge_worst_grade (results : List JSValue)
    (hne : results ≠ [])
    (hsafe : ∀ r ∈ results, resultSafe r = true) :
    (∃ m, mergeChunkResults results = Except.ok m ∧
      ((∀ r ∈ results, ∃ g, jsGetRaw r "grade" = JSValue.str g ∧
          g ∈ validGrades) →
        jsGetRaw m "grade" ∈ results.map (fun r => jsGetRaw r "grade") ∧
        ∀ r ∈ results, jsIndexOf gradeOrder (jsGetRaw r "grade") ≤
          jsIndexOf gradeOrder (jsGetRaw m "grade")) ∧
      ((∀ r ∈ results, jsIndexOf gradeOrder (jsGetRaw r "grade") = -1) →
        jsGetRaw m "grade" = JSValue.str "A")) ∧
    (mergeChunkResults [JSValue.obj [("grade", JSValue.str "A")],
        JSValue.obj [("grade", JSValue.str "D")]]).map
      (fun m => jsGetRaw m "grade") = Except.ok (JSValue.str "D") := by
  refine ⟨⟨mergePure results, mergeChunkResults_ok results hsafe, ?_, ?_⟩, rfl⟩
  · intro hg
    rw [mergePure_grade]
    have hub := (worstGradeFoldl_ge results (.str "A")).2
    refine ⟨?_, hub⟩
    rcases worstGradeFoldl_mem results (.str "A") with h | ⟨r, hr, h⟩
    · -- the fold never left the accumulator 'A'; every grade is then 'A'
      rcases List.exists_mem_of_ne_nil results hne with ⟨r0, hr0⟩
      obtain ⟨g0, hg0, hg0v⟩ := hg r0 hr0
      have : g0 = "A" := by
        apply valid_grade_le_zero g0 hg0v
        have := hub r0 hr0
        rw [hg0] at this
        rw [h, gradeIdx_A] at this
        exact this
      subst this
      rw [worstGradePure, h, ← hg0]
      exact List.mem_map_of_mem _ hr0
    · rw [worstGradePure, h]
      exact List.mem_map_of_mem _ hr
  · intro hu
    rw [mergePure_grade]
    exact worstGradeFoldl_all_unrecognized results hu

/-- Witness for C3 at the concrete one-element list `[{grade: "B"}]`. -/
theorem claim3_witness :
    ([JSValue.obj [("grade", JSValue.str "B")]] ≠ ([] : List JSValue)) ∧
    (∀ r ∈ [JSValue.obj [("grade", JSValue.str "B")]],
      resultSafe r = true) ∧
    ((∃ m, mergeChunkResults [JSValue.obj [("grade", JSValue.str "B")]] =
        Except.ok m ∧
      ((∀ r ∈ [JSValue.obj [("grade", JSValue.str "B")]],
          ∃ g, jsGetRaw r "grade" = JSValue.str g ∧ g ∈ validGrades) →
        jsGetRaw m "grade" ∈
          [JSValue.obj [("grade", JSValue.str "B")]].map
            (fun r => jsGetRaw r "grade") ∧
        ∀ r ∈ [JSValue.obj [("grade", JSValue.str "B")]],
          jsIndexOf gradeOrder (jsGetRaw r "grade") ≤
            jsIndexOf gradeOrder (jsGetRaw m "grade")) ∧
      ((∀ r ∈ [JSValue.obj [("grade", JSValue.str "B")]],
          jsIndexOf gradeOrder (jsGetRaw r "grade") = -1) →
        jsGetRaw m "grade" = JSValue.str "A")) ∧
    (mergeChunkResults [JSValue.obj [("grade", JSValue.str "A")],
        JSValue.obj [("grade", JSValue.str "D")]]).map
      (fun m => jsGetRaw m "grade") = Except.ok (JSValue.str "D")) := by
  have hsafe : ∀ r ∈ [JSValue.obj [("grade", JSValue.str "B")]],
      resultSafe r = true := by
    intro r hr
    rw [List.mem_singleton] at hr
    subst hr
    rfl
  exact ⟨by simp, hsafe,
    claim3_merge_worst_grade [JSValue.obj [("grade", JSValue.str "B")]]
      (by simp) hsafe⟩

theorem pinsert_mem (fs : List (String × JSValue)) (k : String) (v : JSValue) :
    ∀ p ∈ pinsert fs k v, p = (k, v) ∨ p ∈ fs := by
  induction fs with
  | nil => simp [pinsert]
  | cons kv rest ih =>
      intro p hp
      unfold pinsert at hp
      by_cases h : kv.1 == k
      · rw [if_pos h] at hp
        rcases List.mem_cons.mp hp with h2 | h2
        · left; exact h2
        · right; exact List.mem_cons_of_mem _ h2
      · rw [if_neg h] at hp
        rcases List.mem_cons.mp hp with h2 | h2
        · right; subst h2; exact List.mem_cons_self _ _
        · rcases ih p h2 with h3 | h3
          · left; exact h3
          · right; exact List.mem_cons_of_mem _ h3

theorem plookup_mem (fs : List (String × JSValue)) (k : String) (v : JSValue)
    (h : plookup fs k = some v) : ∃ p ∈ fs, p.2 = v := by
  unfold plookup at h
  rcases hf : fs.find? (fun kv => kv.1 == k) with _ | p
  · rw [hf] at h; exact absurd h (by simp)
  · rw [hf] at h
    refine ⟨p, List.mem_of_find?_eq_some hf, ?_⟩
    exact Option.some.inj h

theorem mergeDDStep_values (acc : List (String × JSValue))
    (kv : String × JSValue) :
    ∀ p ∈ mergeDDStep acc kv, p.2 = kv.2 ∨ ∃ q ∈ acc, p.2 = q.2 := by
  intro p hp
  simp only [mergeDDStep] at hp
  split at hp
  · rcases pinsert_mem acc kv.1 kv.2 p hp with h | h
    · left; rw [h]
    · right; exact ⟨p, h, rfl⟩
  · split at hp
    · rcases pinsert_mem acc kv.1 kv.2 p hp with h | h
      · left; rw [h]
      · right; exact ⟨p, h, rfl⟩
    · right; exact ⟨p, hp, rfl⟩

theorem mergeDDStep_lookup_eq (acc : List (String × JSValue))
    (kv : String × JSValue) (k : String)
    (hacc : ∀ p ∈ acc, jsTruthy p.2 = true) :
    plookup (mergeDDStep acc kv) k =
      if kv.1 = k then selStep (plookup acc k) kv.2 else plookup acc k := by
  unfold mergeDDStep
  rcases hl : plookup acc kv.1 with _ | ex
  · simp only [hl, Option.getD_none]
    rw [show (!jsTruthy JSValue.undefined) = true from rfl, if_pos rfl]
    by_cases hk : kv.1 = k
    · subst hk
      rw [plookup_pinsert_self, if_pos rfl, hl]
      rfl
    · rw [plookup_pinsert_ne _ _ _ _ (by simpa using hk), if_neg hk]
  · obtain ⟨q, hq, hq2⟩ := plookup_mem acc kv.1 ex hl
    have htr : jsTruthy ex = true := hq2 ▸ hacc q hq
    simp only [hl, Option.getD_some]
    rw [show (!jsTruthy ex) = false by simp [htr], if_neg (by simp)]
    by_cases hk : kv.1 = k
    · subst hk
      rw [if_pos rfl]
      by_cases hgt : statusIdx kv.2 > statusIdx ex
      · rw [if_pos hgt, plookup_pinsert_self, hl]
        simp [selStep, hgt]
      · rw [if_neg hgt, hl]
        simp [selStep, hgt]
    · rw [if_neg hk]
      by_cases hgt : statusIdx kv.2 > statusIdx ex
      · rw [if_pos hgt, plookup_pinsert_ne _ _ _ _ (by simpa using hk)]
      · rw [if_neg hgt]

theorem ddFoldl_lookup (es : List (String × JSValue))
    (acc : List (String × JSValue)) (k : String)
    (hacc : ∀ p ∈ acc, jsTruthy p.2 = true)
    (hes : ∀ p ∈ es, jsTruthy p.2 = true) :
    plookup (es.foldl mergeDDStep acc) k =
      selectFinding (plookup acc k)
        (es.filterMap (fun kv => if kv.1 = k then some kv.2 else none)) := by
  induction es generalizing acc with
  | nil => rfl
  | cons kv es ih =>
      rw [List.foldl_cons]
      have hkv : jsTruthy kv.2 = true := hes kv (List.mem_cons_self kv es)
      have hacc' : ∀ p ∈ mergeDDStep acc kv, jsTruthy p.2 = true := by
        intro p hp
        rcases mergeDDStep_values acc kv p hp with h | ⟨q, hq, h⟩
        · rw [h]; exact hkv
        · rw [h]; exact hacc q hq
      rw [ih (mergeDDStep acc kv) hacc'
        (fun p hp => hes p (List.mem_cons_of_mem _ hp))]
      rw [mergeDDStep_lookup_eq acc kv k hacc]
      by_cases hk : kv.1 = k
      · rw [if_pos hk, List.filterMap_cons, if_pos hk]
        rfl
      · rw [if_neg hk, List.filterMap_cons, if_neg hk]

theorem selectFinding_some_spec (fs : List JSValue) :
    ∀ a : JSValue,
      (selectFinding (some a) fs = some a ∧
        ∀ f ∈ fs, statusIdx f ≤ statusIdx a) ∨
      (∃ i, ∃ h : i < fs.length,
        selectFinding (some a) fs = some (fs.get ⟨i, h⟩) ∧
        statusIdx a < statusIdx (fs.get ⟨i, h⟩) ∧
        (∀ f ∈ fs, statusIdx f ≤ statusIdx (fs.get ⟨i, h⟩)) ∧
        (∀ f ∈ fs.take i, statusIdx f < statusIdx (fs.get ⟨i, h⟩))) := by
  induction fs with
  | nil => intro a; left; exact ⟨rfl, by simp⟩
  | cons f fs ih =>
      intro a
      have hsel : selectFinding (some a) (f :: fs) =
          selectFinding (selStep (some a) f) fs := rfl
      by_cases hgt : statusIdx f > statusIdx a
      · have hstep : selStep (some a) f = some f := by simp [selStep, hgt]
        rw [hsel, hstep]
        rcases ih f with ⟨h1, h2⟩ | ⟨i, hi, h1, h2, h3, h4⟩
        · right
          refine ⟨0, by simp, ?_, ?_, ?_, ?_⟩
          · simpa using h1
          · simpa using hgt
          · intro g hg
            rcases List.mem_cons.mp hg with h | h
            · subst h; simp
            · simpa using h2 g h
          · simp
        · right
          refine ⟨i + 1, by simpa using hi, ?_, ?_, ?_, ?_⟩
          · simpa using h1
          · exact lt_trans hgt (by simpa using h2)
          · intro g hg
            rcases List.mem_cons.mp hg with h | h
            · subst h
              exact le_of_lt (by simpa using h2)
            · simpa using h3 g h
          · intro g hg
            rw [List.take_succ_cons] at hg
            rcases List.mem_cons.mp hg with h | h
            · subst h
              simpa using h2
            · simpa using h4 g h
      · have hstep : selStep (some a) f = some a := by simp [selStep, hgt]
        rw [hsel, hstep]
        have hle : statusIdx f ≤ statusIdx a := by omega
        rcases ih a with ⟨h1, h2⟩ | ⟨i, hi, h1, h2, h3, h4⟩
        · left
          refine ⟨h1, fun g hg => ?_⟩
          rcases List.mem_cons.mp hg with h | h
          · subst h; exact hle
          · exact h2 g h
        · right
          refine ⟨i + 1, by simpa using hi, ?_, ?_, ?_, ?_⟩
          · simpa using h1
          · simpa using h2
          · intro g hg
            rcases List.mem_cons.mp hg with h | h
            · subst h
              exact le_of_lt (lt_of_le_of_lt hle (by simpa using h2))
            · simpa using h3 g h
          · intro g hg
            rw [List.take_succ_cons] at hg
            rcases List.mem_cons.mp hg with h | h
            · subst h
              exact lt_of_le_of_lt hle (by simpa using h2)
            · simpa using h4 g h

theorem selectFinding_none_spec (fs : List JSValue) (hne : fs ≠ []) :
    ∃ i, ∃ hi : i < fs.length,
      selectFinding none fs = some (fs.get ⟨i, hi⟩) ∧
      (∀ f ∈ fs, statusIdx f ≤ statusIdx (fs.get ⟨i, hi⟩)) ∧
      (∀ f ∈ fs.take i, statusIdx f < statusIdx (fs.get ⟨i, hi⟩)) := by
  match fs, hne with
  | f :: fs, _ =>
      have hsel : selectFinding none (f :: fs) =
          selectFinding (some f) fs := rfl
      rcases selectFinding_some_spec fs f with ⟨h1, h2⟩ |
        ⟨i, hi, h1, h2, h3, h4⟩
      · refine ⟨0, by simp, ?_, ?_, ?_⟩
        · rw [hsel]; simpa using h1
        · intro g hg
          rcases List.mem_cons.mp hg with h | h
          · subst h; simp
          · simpa using h2 g h
        · simp
      · refine ⟨i + 1, by simpa using hi, ?_, ?_, ?_⟩
        · rw [hsel]; simpa using h1
        · intro g hg
          rcases List.mem_cons.mp hg with h | h
          · subst h
            exact le_of_lt (by simpa using h2)
          · simpa using h3 g h
        · intro g hg
          rw [List.take_succ_cons] at hg
          rcases List.mem_cons.mp hg with h | h
          · subst h
            simpa using h2
          · simpa using h4 g h

theorem resultSafe_of (r : JSValue) (h1 : isNullish r = false)
    (h2 : ∀ p ∈ ddEntriesOf r, jsTruthy p.2 = true) :
    resultSafe r = true := by
  unfold resultSafe
  rw [h1]
  simp only [Bool.not_false, Bool.true_and, List.all_eq_true]
  intro kv hkv
  simpa using jsTruthy_not_nullish _ (h2 kv hkv)

theorem mergePure_dirtyDozen (results : List JSValue) :
    jsGetRaw (mergePure results) "dirtyDozen" =
      JSValue.obj (mergeDDPure results) := rfl

theorem mergeDDPure_lookup (results : List JSValue) (k : String)
    (htr : ∀ r ∈ results, ∀ p ∈ ddEntriesOf r, jsTruthy p.2 = true) :
    plookup (mergeDDPure results) k =
      selectFinding none (keyFindings results k) := by
  unfold mergeDDPure keyFindings
  rw [ddFoldl_lookup _ [] k (by simp) ?_]
  · rfl
  · intro p hp
    obtain ⟨r, hr, hpr⟩ := List.mem_flatMap.mp hp
    exact htr r hr p hpr

/-- C5: for every non-empty list of merge-safe results whose contributed
findings are truthy objects, and every category id `k`,
`mergeChunkResults` keeps exactly the first-seen finding of maximal
`statusOrder` index among the findings for `k` (in chunk order): the kept
finding is one of them, bounds all of them, and strictly exceeds every
finding seen before it — so a later finding replaces an earlier one only
on a strict increase, and equal statuses keep the earliest-seen finding;
a category no chunk reports is absent. -/
theorem claim5_dirty_dozen_merge (results : List JSValue)
    (_hne : results ≠ [])
    (hnn : ∀ r ∈ results, isNullish r = false)
    (htr : ∀ r ∈ results, ∀ p ∈ ddEntriesOf r, jsTruthy p.2 = true) :
    ∃ m dd, mergeChunkResults results = Except.ok m ∧
      jsGetRaw m "dirtyDozen" = JSValue.obj dd ∧
      ∀ k : String,
        (keyFindings results k = [] → plookup dd k = none) ∧
        (keyFindings results k ≠ [] →
          ∃ i, ∃ hi : i < (keyFindings results k).length,
            plookup dd k = some ((keyFindings results k).get ⟨i, hi⟩) ∧
            (∀ f ∈ keyFindings results k,
              statusIdx f ≤
                statusIdx ((keyFindings results k).get ⟨i, hi⟩)) ∧
            (∀ f ∈ (keyFindings results k).take i,
              statusIdx f <
                statusIdx ((keyFindings results k).get ⟨i, hi⟩))) := by
  have hsafe : ∀ r ∈ results, resultSafe r = true :=
    fun r hr => resultSafe_of r (hnn r hr) (htr r hr)
  refine ⟨mergePure results, mergeDDPure results,
    mergeChunkResults_ok results hsafe, rfl, fun k => ⟨?_, ?_⟩⟩
  · intro h0
    rw [mergeDDPure_lookup results k htr, h0]
    rfl
  · intro hne2
    rw [mergeDDPure_lookup results k htr]
    exact selectFinding_none_spec _ hne2

/-- Witness for C5 at the concrete one-element list
`[{dirtyDozen: {x: {status: "danger"}}}]`. -/
theorem claim5_witness :
    (([JSValue.obj [("dirtyDozen",
        JSValue.obj [("x", JSValue.obj [("status", JSValue.str "danger")])])]] :
      List JSValue) ≠ []) ∧
    (∀ r ∈ [JSValue.obj [("dirtyDozen",
        JSValue.obj [("x", JSValue.obj [("status", JSValue.str "danger")])])]],
      isNullish r = false) ∧
    (∀ r ∈ [JSValue.obj [("dirtyDozen",
        JSValue.obj [("x", JSValue.obj [("status", JSValue.str "danger")])])]],
      ∀ p ∈ ddEntriesOf r, jsTruthy p.2 = true) ∧
    (∃ m dd, mergeChunkResults [JSValue.obj [("dirtyDozen",
        JSValue.obj [("x", JSValue.obj [("status", JSValue.str "danger")])])]] =
        Except.ok m ∧
      jsGetRaw m "dirtyDozen" = JSValue.obj dd ∧
      ∀ k : String,
        (keyFindings [JSValue.obj [("dirtyDozen",
            JSValue.obj [("x", JSValue.obj [("status", JSValue.str "danger")])])]]
            k = [] →
          plookup dd k = none) ∧
        (keyFindings [JSValue.obj [("dirtyDozen",
            JSValue.obj [("x", JSValue.obj [("status", JSValue.str "danger")])])]]
            k ≠ [] →
          ∃ i, ∃ hi : i < (keyFindings [JSValue.obj [("dirtyDozen",
            JSValue.obj [("x", JSValue.obj [("status", JSValue.str "danger")])])]]
            k).length,
            plookup dd k = some ((keyFindings [JSValue.obj [("dirtyDozen",
              JSValue.obj [("x",
                JSValue.obj [("status", JSValue.str "danger")])])]]
              k).get ⟨i, hi⟩) ∧
            (∀ f ∈ keyFindings [JSValue.obj [("dirtyDozen",
                JSValue.obj [("x",
                  JSValue.obj [("status", JSValue.str "danger")])])]] k,
              statusIdx f ≤ statusIdx ((keyFindings [JSValue.obj [("dirtyDozen",
                JSValue.obj [("x",
                  JSValue.obj [("status", JSValue.str "danger")])])]]
                k).get ⟨i, hi⟩)) ∧
            (∀ f ∈ (keyFindings [JSValue.obj [("dirtyDozen",
                JSValue.obj [("x",
                  JSValue.obj [("status", JSValue.str "danger")])])]]
                k).take i,
              statusIdx f < statusIdx ((keyFindings [JSValue.obj [("dirtyDozen",
                JSValue.obj [("x",
                  JSValue.obj [("status", JSValue.str "danger")])])]]
                k).get ⟨i, hi⟩)))) := by
  have hnn : ∀ r ∈ [JSValue.obj [("dirtyDozen",
      JSValue.obj [("x", JSValue.obj [("status", JSValue.str "danger")])])]],
      isNullish r = false := by
    intro r hr
    rw [List.mem_singleton] at hr
    subst hr
    rfl
  have htr : ∀ r ∈ [JSValue.obj [("dirtyDozen",
      JSValue.obj [("x", JSValue.obj [("status", JSValue.str "danger")])])]],
      ∀ p ∈ ddEntriesOf r, jsTruthy p.2 = true := by
    intro r hr
    rw [List.mem_singleton] at hr
    subst hr
    intro p hp
    rw [show ddEntriesOf (JSValue.obj [("dirtyDozen",
      JSValue.obj [("x", JSValue.obj [("status", JSValue.str "danger")])])]) =
      [("x", JSValue.obj [("status", JSValue.str "danger")])] from rfl,
      List.mem_singleton] at hp
    subst hp
    rfl
  exact ⟨by simp, hnn, htr,
    claim5_dirty_dozen_merge _ (by simp) hnn htr⟩

theorem jsEq_str (a b : String) : jsEq (.str a) (.str b) = (a == b) := rfl

theorem notMem_filter_fuse (ss accS : List String) (s : String) :
    ss.filter (fun x => x ∉ accS ++ [s]) =
      (ss.filter (fun x => x ∉ accS)).filter (fun x => x ≠ s) := by
  rw [List.filter_filter]
  apply List.filter_congr
  intro x _
  by_cases h1 : x ∈ accS <;> by_cases h2 : x = s <;>
    simp [h1, h2, List.mem_append]

theorem jsSetDedup_go (ss accS : List String) :
    (ss.map JSValue.str).foldl
      (fun acc x => if acc.any (fun y => jsEq y x) then acc else acc ++ [x])
      (accS.map JSValue.str) =
    ((accS ++ dedupFirst (ss.filter (fun s => s ∉ accS))).map JSValue.str) := by
  induction ss generalizing accS with
  | nil => simp [dedupFirst]
  | cons s ss ih =>
      have hany : ((accS.map JSValue.str).any fun y => jsEq y (.str s)) =
          decide (s ∈ accS) := by
        induction accS with
        | nil => rfl
        | cons a as iha =>
            rw [List.map_cons, List.any_cons, iha, jsEq_str]
            by_cases h : a = s
            · subst h; simp
            · have h2 : (a == s) = false := by simpa using h
              have h3 : ¬ (s = a) := fun hh => h hh.symm
              simp [h2, h3]
      rw [List.map_cons, List.foldl_cons]
      by_cases hs : s ∈ accS
      · rw [hany, if_pos (by simpa using hs), ih accS]
        congr 2
        rw [List.filter_cons, if_neg (by simpa using hs)]
      · rw [hany, if_neg (by simpa using hs)]
        rw [show (accS.map JSValue.str) ++ [JSValue.str s] =
          (accS ++ [s]).map JSValue.str by simp]
        rw [ih (accS ++ [s])]
        rw [List.filter_cons, if_pos (by simpa using hs)]
        rw [show dedupFirst (s :: ss.filter (fun x => x ∉ accS)) =
          s :: dedupFirst ((ss.filter (fun x => x ∉ accS)).filter
            (fun x => x ≠ s)) from by simp [dedupFirst]]
        rw [← notMem_filter_fuse ss accS s, List.append_assoc]
        rfl

theorem jsSetDedup_strings (ss : List String) :
    jsSetDedup (ss.map JSValue.str) = (dedupFirst ss).map JSValue.str := by
  have h := jsSetDedup_go ss []
  simp only [List.map_nil, List.nil_append] at h
  have hf : ss.filter (fun s => s ∉ ([] : List String)) = ss := by
    apply List.filter_eq_self.mpr
    intro a _
    simp
  rw [hf] at h
  exact h

theorem flatten_map_map {α β : Type} (f : α → β) (L : List (List α)) :
    (L.map (List.map f)).flatten = L.flatten.map f := by
  induction L with
  | nil => rfl
  | cons l L ih =>
      rw [List.map_cons, List.flatten_cons, List.flatten_cons,
        List.map_append, ih]

theorem flatMap_eq_flatten_map {α β : Type} (g : α → List β) (xs : List α) :
    xs.flatMap g = (xs.map g).flatten := by
  induction xs with
  | nil => rfl
  | cons x xs ih => simp [List.flatMap_cons, ih]

theorem mergePure_good (results : List JSValue) :
    jsGetRaw (jsGetRaw (mergePure results) "highlights") "good" =
      JSValue.arr ((jsSetDedup (results.flatMap (hlPure "good"))).take 5) [] :=
  rfl

theorem mergePure_bad (results : List JSValue) :
    jsGetRaw (jsGetRaw (mergePure results) "highlights") "bad" =
      JSValue.arr ((jsSetDedup (results.flatMap (hlPure "bad"))).take 10) [] :=
  rfl

theorem mergePure_quotes (results : List JSValue) :
    jsGetRaw (mergePure results) "criticalQuotes" =
      JSValue.arr ((results.flatMap quotesPure).take 5) [] := rfl

/-- C7: for every non-empty list of merge-safe results whose highlight
lists consist of strings, `mergeChunkResults` returns `highlights.good`
equal to the concatenation of all chunks' good-highlight strings with
duplicates removed preserving first-occurrence order and truncated to the
first 5, `highlights.bad` by the same rule truncated to the first 10, and
`criticalQuotes` equal to the plain concatenation (no deduplication) of
all chunks' quote lists in chunk order truncated to the first 5; e.g.
good lists `['a','b']` and `['b','c']` merge to `['a','b','c']`. -/
theorem claim7_highlights_merge (results : List JSValue)
    (_hne : results ≠ [])
    (hsafe : ∀ r ∈ results, resultSafe r = true)
    (goods bads : List (List String))
    (hg : results.map (hlPure "good") = goods.map (List.map JSValue.str))
    (hb : results.map (hlPure "bad") = bads.map (List.map JSValue.str)) :
    (∃ m, mergeChunkResults results = Except.ok m ∧
      jsGetRaw (jsGetRaw m "highlights") "good" =
        JSValue.arr (((dedupFirst goods.flatten).map JSValue.str).take 5) [] ∧
      jsGetRaw (jsGetRaw m "highlights") "bad" =
        JSValue.arr (((dedupFirst bads.flatten).map JSValue.str).take 10) [] ∧
      jsGetRaw m "criticalQuotes" =
        JSValue.arr ((results.map quotesPure).flatten.take 5) []) ∧
    (mergeChunkResults
        [JSValue.obj [("highlights", JSValue.obj [("good",
           JSValue.arr [JSValue.str "a", JSValue.str "b"] [])])],
         JSValue.obj [("highlights", JSValue.obj [("good",
           JSValue.arr [JSValue.str "b", JSValue.str "c"] [])])]]).map
      (fun m => jsGetRaw (jsGetRaw m "highlights") "good") =
      Except.ok (JSValue.arr
        [JSValue.str "a", JSValue.str "b", JSValue.str "c"] []) := by
  refine ⟨⟨mergePure results, mergeChunkResults_ok results hsafe,
    ?_, ?_, ?_⟩, rfl⟩
  · rw [mergePure_good, flatMap_eq_flatten_map, hg, flatten_map_map,
      jsSetDedup_strings]
  · rw [mergePure_bad, flatMap_eq_flatten_map, hb, flatten_map_map,
      jsSetDedup_strings]
  · rw [mergePure_quotes, flatMap_eq_flatten_map]

/-- Witness for C7 at the concrete two-chunk example with good lists
`['a','b']` and `['b','c']`. -/
theorem claim7_witness :
    (([JSValue.obj [("highlights", JSValue.obj [("good",
        JSValue.arr [JSValue.str "a", JSValue.str "b"] [])])],
      JSValue.obj [("highlights", JSValue.obj [("good",
        JSValue.arr [JSValue.str "b", JSValue.str "c"] [])])]] :
      List JSValue) ≠ []) ∧
    (∀ r ∈ [JSValue.obj [("highlights", JSValue.obj [("good",
        JSValue.arr [JSValue.str "a", JSValue.str "b"] [])])],
      JSValue.obj [("highlights", JSValue.obj [("good",
        JSValue.arr [JSValue.str "b", JSValue.str "c"] [])])]],
      resultSafe r = true) ∧
    ([JSValue.obj [("highlights", JSValue.obj [("good",
        JSValue.arr [JSValue.str "a", JSValue.str "b"] [])])],
      JSValue.obj [("highlights", JSValue.obj [("good",
        JSValue.arr [JSValue.str "b", JSValue.str "c"] [])])]].map
          (hlPure "good") =
      [["a", "b"], ["b", "c"]].map (List.map JSValue.str)) ∧
    (∃ m, mergeChunkResults
        [JSValue.obj [("highlights", JSValue.obj [("good",
          JSValue.arr [JSValue.str "a", JSValue.str "b"] [])])],
         JSValue.obj [("highlights", JSValue.obj [("good",
          JSValue.arr [JSValue.str "b", JSValue.str "c"] [])])]] =
        Except.ok m ∧
      jsGetRaw (jsGetRaw m "highlights") "good" =
        JSValue.arr (((dedupFirst ([["a", "b"], ["b", "c"]] :
          List (List String)).flatten).map JSValue.str).take 5) [] ∧
      jsGetRaw (jsGetRaw m "highlights") "bad" =
        JSValue.arr (((dedupFirst ([[], []] :
          List (List String)).flatten).map JSValue.str).take 10) [] ∧
      jsGetRaw m "criticalQuotes" =
        JSValue.arr (([JSValue.obj [("highlights", JSValue.obj [("good",
          JSValue.arr [JSValue.str "a", JSValue.str "b"] [])])],
         JSValue.obj [("highlights", JSValue.obj [("good",
          JSValue.arr [JSValue.str "b", JSValue.str "c"] [])])]].map
            quotesPure).flatten.take 5) []) := by
  have hsafe : ∀ r ∈ [JSValue.obj [("highlights", JSValue.obj [("good",
      JSValue.arr [JSValue.str "a", JSValue.str "b"] [])])],
      JSValue.obj [("highlights", JSValue.obj [("good",
      JSValue.arr [JSValue.str "b", JSValue.str "c"] [])])]],
      resultSafe r = true := by
    intro r hr
    rcases List.mem_cons.mp hr with h | h
    · subst h; rfl
    · rw [List.mem_singleton] at h
      subst h; rfl
  exact ⟨by simp, hsafe, rfl,
    (claim7_highlights_merge _ (by simp) hsafe
      [["a", "b"], ["b", "c"]] [[], []] rfl rfl).1⟩


/-- C6 counterexample: an HTTP 429 response whose body is the four bytes
`null` is valid JSON, so `response.json()` succeeds with `null`; reading
`errorData.error` then throws a `TypeError`, and `callLLM` rejects with
that `TypeError` instead of an `Error` carrying the priority-resolved
message — in particular not the rate-limit sentence the claim promises
for every non-success 429 response. -/
theorem claim6_counterexample :
    callLLMResponse ⟨false, 429, "null"⟩ =
      Except.error (JSErr.typeError "cannot read error of object") ∧
    callLLMResponse ⟨false, 429, "null"⟩ ≠
      Except.error (JSErr.error (JSValue.str
        "Rate limit exceeded - please wait a moment and try again")) := by
  refine ⟨rfl, fun h => ?_⟩
  have h0 : callLLMResponse ⟨false, 429, "null"⟩ =
      Except.error (JSErr.typeError "cannot read error of object") := rfl
  rw [h0] at h
  exact JSErr.noConfusion (Except.error.inj h)


theorem gradeNormalize_falsy (parsed : JSValue) (hnn : isNullish parsed = false)
    (hf : jsTruthy (jsGetRaw parsed "grade") = false) :
    gradeNormalize parsed = jsSetField parsed "grade" (.str "C") := by
  unfold gradeNormalize
  rw [jsGetField_ok parsed "grade" hnn]
  simp only [Bind.bind, Except.bind, hf, Bool.not_false, if_true, Pure.pure,
    Except.pure]

theorem gradeNormalize_str (parsed : JSValue) (hnn : isNullish parsed = false)
    (s : String) (hg : jsGetRaw parsed "grade" = .str s) (hs : s ≠ "") :
    gradeNormalize parsed =
      if validGrades.contains (⟨s.toList.map Char.toUpper⟩ : String) then
        jsSetField parsed "grade" (.str ⟨s.toList.map Char.toUpper⟩)
      else jsSetField parsed "grade" (.str "C") := by
  unfold gradeNormalize
  rw [jsGetField_ok parsed "grade" hnn, hg]
  have ht : jsTruthy (JSValue.str s) = true := by simp [jsTruthy, hs]
  by_cases hv : validGrades.contains (⟨s.toList.map Char.toUpper⟩ : String) =
    true
  · rw [if_pos hv]
    simp only [Bind.bind, Except.bind, ht, Bool.not_true, Bool.false_eq_true,
      if_false, jsToUpperCase, Pure.pure, Except.pure, hv]
  · rw [if_neg hv]
    have hv' : validGrades.contains (⟨s.toList.map Char.toUpper⟩ : String) =
        false := by simpa using hv
    simp only [Bind.bind, Except.bind, ht, Bool.not_true, Bool.false_eq_true,
      if_false, jsToUpperCase, Pure.pure, Except.pure, hv', Bool.not_false,
      if_true]

theorem gradeNormalize_nonstr (parsed : JSValue)
    (hnn : isNullish parsed = false)
    (ht : jsTruthy (jsGetRaw parsed "grade") = true)
    (hns : ∀ s : String, jsGetRaw parsed "grade" ≠ .str s) :
    gradeNormalize parsed = Except.error (.typeError
      ("toUpperCase is not a function on " ++
        jsTypeof (jsGetRaw parsed "grade"))) := by
  unfold gradeNormalize
  rw [jsGetField_ok parsed "grade" hnn]
  have herr : jsToUpperCase (jsGetRaw parsed "grade") = Except.error
      (.typeError ("toUpperCase is not a function on " ++
        jsTypeof (jsGetRaw parsed "grade"))) := by
    cases hgr : jsGetRaw parsed "grade" with
    | str s => exact absurd hgr (hns s)
    | undefined => rfl
    | null => rfl
    | bool b => rfl
    | num m e => rfl
    | arr xs ps => rfl
    | obj fs => rfl
  simp only [Bind.bind, Except.bind, ht, Bool.not_true, Bool.false_eq_true,
    if_false, herr]

theorem assembleResult_ok (p : JSValue) (hnn : isNullish p = false) :
    assembleResult p = Except.ok (.obj [
      ("grade", jsGetRaw p "grade"),
      ("summary",
       if jsGtTen (jsOptGet (jsGetRaw p "summary") "length") then
         jsGetRaw p "summary"
       else .str analysisFallbackSummary),
      ("dirtyDozen",
       if jsTypeof (jsGetRaw p "dirtyDozen") == "object" then
         jsGetRaw p "dirtyDozen"
       else .obj []),
      ("highlights", .obj [
        ("good",
         if jsIsArray (jsOptGet (jsGetRaw p "highlights") "good") then
           jsOptGet (jsGetRaw p "highlights") "good"
         else .arr [] []),
        ("bad",
         if jsIsArray (jsOptGet (jsGetRaw p "highlights") "bad") then
           jsOptGet (jsGetRaw p "highlights") "bad"
         else .arr [] [])]),
      ("criticalQuotes",
       if jsIsArray (jsGetRaw p "criticalQuotes") then
         jsGetRaw p "criticalQuotes"
       else .arr [] [])]) := by
  unfold assembleResult
  rw [jsGetField_ok p "grade" hnn, jsGetField_ok p "summary" hnn,
    jsGetField_ok p "dirtyDozen" hnn, jsGetField_ok p "highlights" hnn,
    jsGetField_ok p "criticalQuotes" hnn]
  rfl

theorem parseAnalysisSteps_err (p : JSValue) (e : JSErr)
    (h : gradeNormalize p = .error e) :
    parseAnalysisSteps p = .error e := by
  unfold parseAnalysisSteps
  rw [h]
  rfl

theorem parseAnalysisSteps_eq (p p' : JSValue)
    (h : gradeNormalize p = .ok p') :
    parseAnalysisSteps p = assembleResult p' := by
  unfold parseAnalysisSteps
  rw [h]
  rfl

theorem parseAnalysisBody_eq (resp parsed : JSValue)
    (h : parsedValueOf resp = .ok parsed) :
    parseAnalysisBody resp = parseAnalysisSteps parsed := by
  unfold parseAnalysisBody
  rw [h]
  rfl

theorem parseAnalysisResponse_of_ok (resp r : JSValue)
    (h : parseAnalysisBody resp = .ok r) :
    parseAnalysisResponse resp = r := by
  unfold parseAnalysisResponse
  rw [h]

theorem parseAnalysisResponse_of_err (resp : JSValue) (e : JSErr)
    (h : parseAnalysisBody resp = .error e) :
    parseAnalysisResponse resp = sentinelResult := by
  unfold parseAnalysisResponse
  rw [h]

theorem jsGetRaw_obj_head (k : String) (v : JSValue)
    (rest : List (String × JSValue)) :
    jsGetRaw (.obj ((k, v) :: rest)) k = v := by
  simp [jsGetRaw, plookup_cons]

theorem jsGetRaw_obj_cons_ne (k k' : String) (v : JSValue)
    (rest : List (String × JSValue)) (h : (k == k') = false) :
    jsGetRaw (.obj ((k, v) :: rest)) k' = jsGetRaw (.obj rest) k' := by
  simp [jsGetRaw, plookup_cons, h]

theorem jsSetGrade_spec (parsed w : JSValue)
    (hsh : (∃ fs, parsed = JSValue.obj fs) ∨
      ∃ xs ps, parsed = JSValue.arr xs ps) :
    ∃ p', jsSetField parsed "grade" w = Except.ok p' ∧
      jsGetRaw p' "grade" = w ∧ isNullish p' = false ∧
      ∀ k, (k == "grade") = false → (k == "length") = false →
        isIndexString k = false → jsGetRaw p' k = jsGetRaw parsed k := by
  rcases hsh with ⟨fs, rfl⟩ | ⟨xs, ps, rfl⟩
  · refine ⟨.obj (pinsert fs "grade" w), rfl,
      by simp [jsGetRaw, plookup_pinsert_self], rfl, ?_⟩
    intro k hk _ _
    have hk' : ("grade" == k) = false := by
      simp only [beq_eq_false_iff_ne] at hk ⊢
      exact fun h => hk h.symm
    simp [jsGetRaw, plookup_pinsert_ne _ _ _ _ hk']
  · refine ⟨.arr xs (pinsert ps "grade" w), rfl, ?_, rfl, ?_⟩
    · show jsGetRaw (.arr xs (pinsert ps "grade" w)) "grade" = w
      simp [jsGetRaw, isIndexString, plookup_pinsert_self]
    · intro k hk hlen hidx
      have hk' : ("grade" == k) = false := by
        simp only [beq_eq_false_iff_ne] at hk ⊢
        exact fun h => hk h.symm
      simp [jsGetRaw, hlen, hidx, plookup_pinsert_ne _ _ _ _ hk']

/-- C4 corrected (amended to what the code does): for every reply that
parses successfully to an object or array, the normalizer forces the
grade to `'C'` when the parsed grade field is falsy (absent, `null`,
`""`, `0`, `false`) or is a string outside `{A,B,C,D,F}`
case-insensitively, and upper-cases it when it is a string in that set;
but a truthy non-string grade makes `parsed.grade.toUpperCase()` throw,
so such a reply yields the sentinel with grade `'?'` — the original
claim's "including when it is not a string" and "never yields grade '?'"
hold only for falsy non-strings. -/
theorem claim4_grade_normalization_amended (response parsed : JSValue)
    (hp : parsedValueOf response = Except.ok parsed)
    (hsh : (∃ fs, parsed = JSValue.obj fs) ∨
      ∃ xs ps, parsed = JSValue.arr xs ps) :
    (jsTruthy (jsGetRaw parsed "grade") = false →
      jsGetRaw (parseAnalysisResponse response) "grade" = JSValue.str "C") ∧
    (∀ s : String, jsGetRaw parsed "grade" = JSValue.str s → s ≠ "" →
      ((⟨s.toList.map Char.toUpper⟩ : String) ∈ validGrades →
        jsGetRaw (parseAnalysisResponse response) "grade" =
          JSValue.str ⟨s.toList.map Char.toUpper⟩) ∧
      ((⟨s.toList.map Char.toUpper⟩ : String) ∉ validGrades →
        jsGetRaw (parseAnalysisResponse response) "grade" =
          JSValue.str "C")) ∧
    (jsTruthy (jsGetRaw parsed "grade") = true →
      (∀ s : String, jsGetRaw parsed "grade" ≠ JSValue.str s) →
      parseAnalysisResponse response = sentinelResult) := by
  have hnn : isNullish parsed = false := by
    rcases hsh with ⟨fs, rfl⟩ | ⟨xs, ps, rfl⟩ <;> rfl
  have setCase : ∀ w : JSValue, gradeNormalize parsed =
      jsSetField parsed "grade" w →
      jsGetRaw (parseAnalysisResponse response) "grade" = w := by
    intro w hnorm
    obtain ⟨p', hset, hget, hnn', _⟩ := jsSetGrade_spec parsed w hsh
    have hbody : parseAnalysisBody response = assembleResult p' :=
      (parseAnalysisBody_eq _ _ hp).trans
        (parseAnalysisSteps_eq _ _ (hnorm.trans hset))
    rw [parseAnalysisResponse_of_ok response _
      (hbody.trans (assembleResult_ok p' hnn'))]
    rw [jsGetRaw_obj_head, hget]
  refine ⟨?_, ?_, ?_⟩
  · intro hf
    exact setCase _ (gradeNormalize_falsy parsed hnn hf)
  · intro s hg hs
    constructor
    · intro hin
      apply setCase
      rw [gradeNormalize_str parsed hnn s hg hs]
      rw [if_pos (List.elem_eq_true_of_mem hin)]
    · intro hout
      apply setCase
      rw [gradeNormalize_str parsed hnn s hg hs]
      rw [if_neg (by simpa using hout)]
  · intro ht hns
    exact parseAnalysisResponse_of_err response _
      ((parseAnalysisBody_eq _ _ hp).trans
        (parseAnalysisSteps_err _ _ (gradeNormalize_nonstr parsed hnn ht hns)))

/-- Witness for C4 (amended) at the concrete object reply
`{grade: "b"}`: the lower-case string grade is upper-cased to `'B'`. -/
theorem claim4_witness :
    parsedValueOf (JSValue.obj [("grade", JSValue.str "b")]) =
      Except.ok (JSValue.obj [("grade", JSValue.str "b")]) ∧
    jsGetRaw (JSValue.obj [("grade", JSValue.str "b")]) "grade" =
      JSValue.str "b" ∧
    jsGetRaw (parseAnalysisResponse (JSValue.obj [("grade", JSValue.str "b")]))
      "grade" = JSValue.str ⟨"b".toList.map Char.toUpper⟩ :=
  ⟨rfl, rfl,
   ((claim4_grade_normalization_amended
      (JSValue.obj [("grade", JSValue.str "b")])
      (JSValue.obj [("grade", JSValue.str "b")]) rfl
      (Or.inl ⟨_, rfl⟩)).2.1 "b" rfl (by decide)).1 (by decide)⟩

theorem validGrade_facts (g : String) (h : g ∈ validGrades) :
    (⟨g.toList.map Char.toUpper⟩ : String) = g ∧
    validGrades.contains g = true ∧ g ≠ "" := by
  simp only [validGrades, List.mem_cons, List.not_mem_nil, or_false] at h
  rcases h with rfl | rfl | rfl | rfl | rfl <;> exact ⟨rfl, rfl, by decide⟩

theorem jsGtTen_len (s : String) (h : 10 < s.length) :
    jsGtTen (jsOptGet (JSValue.str s) "length") = true := by
  have h1 : jsOptGet (JSValue.str s) "length" = .num (s.length : Int) 0 := by
    simp [jsOptGet, isNullish, jsGetRaw]
  rw [h1]
  simp only [jsGtTen, jsToNumber?, numGt]
  simp only [min_self, sub_self, Int.toNat_zero, pow_zero, mul_one]
  simpa using h

/-- A well-formed parsed value (valid grade, long summary, object-typed
`dirtyDozen`, array highlights and quotes) normalizes without error to
the result object built verbatim from its fields. -/
theorem normalize_fixed_output (p : JSValue) (hnnp : isNullish p = false)
    (hsh : (∃ fs, p = JSValue.obj fs) ∨ ∃ xs ps, p = JSValue.arr xs ps)
    (g : String) (hgr : jsGetRaw p "grade" = JSValue.str g)
    (hgv : g ∈ validGrades)
    (s : String) (hsum : jsGetRaw p "summary" = JSValue.str s)
    (hlen : 10 < s.length)
    (hdd : jsTypeof (jsGetRaw p "dirtyDozen") = "object")
    (hgood : jsIsArray (jsOptGet (jsGetRaw p "highlights") "good") = true)
    (hbad : jsIsArray (jsOptGet (jsGetRaw p "highlights") "bad") = true)
    (hq : jsIsArray (jsGetRaw p "criticalQuotes") = true) :
    parseAnalysisBody p = Except.ok (.obj [
      ("grade", JSValue.str g), ("summary", JSValue.str s),
      ("dirtyDozen", jsGetRaw p "dirtyDozen"),
      ("highlights", .obj [
        ("good", jsOptGet (jsGetRaw p "highlights") "good"),
        ("bad", jsOptGet (jsGetRaw p "highlights") "bad")]),
      ("criticalQuotes", jsGetRaw p "criticalQuotes")]) := by
  have hpv : parsedValueOf p = Except.ok p := by
    rcases hsh with ⟨fs, rfl⟩ | ⟨xs, ps, rfl⟩ <;> rfl
  obtain ⟨hup, hcon, hgne⟩ := validGrade_facts g hgv
  have hnorm : gradeNormalize p = jsSetField p "grade" (.str g) := by
    rw [gradeNormalize_str p hnnp g hgr hgne, hup, if_pos hcon]
  obtain ⟨p', hset, hget, hnn', hpres⟩ := jsSetGrade_spec p (.str g) hsh
  have hsum' : jsGetRaw p' "summary" = JSValue.str s :=
    (hpres "summary" rfl rfl rfl).trans hsum
  have hdd' : jsGetRaw p' "dirtyDozen" = jsGetRaw p "dirtyDozen" :=
    hpres "dirtyDozen" rfl rfl rfl
  have hhl' : jsGetRaw p' "highlights" = jsGetRaw p "highlights" :=
    hpres "highlights" rfl rfl rfl
  have hq' : jsGetRaw p' "criticalQuotes" = jsGetRaw p "criticalQuotes" :=
    hpres "criticalQuotes" rfl rfl rfl
  have hbody : parseAnalysisBody p = assembleResult p' :=
    (parseAnalysisBody_eq _ _ hpv).trans
      (parseAnalysisSteps_eq _ _ (hnorm.trans hset))
  rw [hbody, assembleResult_ok p' hnn', hget, hsum', hdd', hhl', hq']
  have hddb : (jsTypeof (jsGetRaw p "dirtyDozen") == "object") = true := by
    rw [hdd]; rfl
  rw [if_pos (jsGtTen_len s hlen), if_pos hddb, if_pos hgood, if_pos hbad,
    if_pos hq]

/-- C8: the normalizer is idempotent on already-well-formed input: for
every object `x` whose grade is a valid `{A,B,C,D,F}` grade, whose
summary is a string longer than 10 characters, whose `dirtyDozen` is
`typeof`-object, and whose highlight lists and `criticalQuotes` are
arrays, `normalize(normalize(x)) = normalize(x)`. -/
theorem claim8_normalize_idempotent (x : JSValue)
    (fs : List (String × JSValue)) (hx : x = JSValue.obj fs)
    (g : String) (hgr : jsGetRaw x "grade" = JSValue.str g)
    (hgv : g ∈ validGrades)
    (s : String) (hsum : jsGetRaw x "summary" = JSValue.str s)
    (hlen : 10 < s.length)
    (hdd : jsTypeof (jsGetRaw x "dirtyDozen") = "object")
    (hgood : jsIsArray (jsOptGet (jsGetRaw x "highlights") "good") = true)
    (hbad : jsIsArray (jsOptGet (jsGetRaw x "highlights") "bad") = true)
    (hq : jsIsArray (jsGetRaw x "criticalQuotes") = true) :
    parseAnalysisResponse (parseAnalysisResponse x) =
      parseAnalysisResponse x := by
  have h1 := normalize_fixed_output x (by rw [hx]; rfl)
    (Or.inl ⟨fs, hx⟩) g hgr hgv s hsum hlen hdd hgood hbad hq
  have hrx := parseAnalysisResponse_of_ok x _ h1
  rw [hrx]
  set DD := jsGetRaw x "dirtyDozen" with hDD
  set G := jsOptGet (jsGetRaw x "highlights") "good" with hG
  set B := jsOptGet (jsGetRaw x "highlights") "bad" with hB
  set Q := jsGetRaw x "criticalQuotes" with hQ
  set robj : JSValue := .obj [
    ("grade", JSValue.str g), ("summary", JSValue.str s),
    ("dirtyDozen", DD),
    ("highlights", .obj [("good", G), ("bad", B)]),
    ("criticalQuotes", Q)] with hrobj
  have hrg : jsGetRaw robj "grade" = JSValue.str g := jsGetRaw_obj_head _ _ _
  have hrs : jsGetRaw robj "summary" = JSValue.str s := by
    rw [hrobj, jsGetRaw_obj_cons_ne "grade" "summary" _ _ (by decide),
      jsGetRaw_obj_head]
  have hrdd : jsGetRaw robj "dirtyDozen" = DD := by
    rw [hrobj, jsGetRaw_obj_cons_ne "grade" "dirtyDozen" _ _ (by decide),
      jsGetRaw_obj_cons_ne "summary" "dirtyDozen" _ _ (by decide),
      jsGetRaw_obj_head]
  have hrhl : jsGetRaw robj "highlights" =
      JSValue.obj [("good", G), ("bad", B)] := by
    rw [hrobj, jsGetRaw_obj_cons_ne "grade" "highlights" _ _ (by decide),
      jsGetRaw_obj_cons_ne "summary" "highlights" _ _ (by decide),
      jsGetRaw_obj_cons_ne "dirtyDozen" "highlights" _ _ (by decide),
      jsGetRaw_obj_head]
  have hrq : jsGetRaw robj "criticalQuotes" = Q := by
    rw [hrobj, jsGetRaw_obj_cons_ne "grade" "criticalQuotes" _ _ (by decide),
      jsGetRaw_obj_cons_ne "summary" "criticalQuotes" _ _ (by decide),
      jsGetRaw_obj_cons_ne "dirtyDozen" "criticalQuotes" _ _ (by decide),
      jsGetRaw_obj_cons_ne "highlights" "criticalQuotes" _ _ (by decide),
      jsGetRaw_obj_head]
  have hrgood : jsOptGet (jsGetRaw robj "highlights") "good" = G := by
    rw [hrhl]
    show jsGetRaw (JSValue.obj [("good", G), ("bad", B)]) "good" = G
    exact jsGetRaw_obj_head _ _ _
  have hrbad : jsOptGet (jsGetRaw robj "highlights") "bad" = B := by
    rw [hrhl]
    show jsGetRaw (JSValue.obj [("good", G), ("bad", B)]) "bad" = B
    rw [jsGetRaw_obj_cons_ne "good" "bad" _ _ (by decide), jsGetRaw_obj_head]
  have h2 := normalize_fixed_output robj rfl (Or.inl ⟨_, rfl⟩)
    g hrg hgv s hrs hlen (by rw [hrdd]; exact hdd)
    (by rw [hrgood]; exact hgood) (by rw [hrbad]; exact hbad)
    (by rw [hrq]; exact hq)
  rw [hrdd, hrgood, hrbad, hrq] at h2
  exact parseAnalysisResponse_of_ok robj _ h2

/-- Witness for C8 at a concrete well-formed result object. -/
theorem claim8_witness :
    jsGetRaw (JSValue.obj [("grade", JSValue.str "A"),
      ("summary", JSValue.str "A long enough summary."),
      ("dirtyDozen", JSValue.obj []),
      ("highlights", JSValue.obj [("good", JSValue.arr [] []),
                                  ("bad", JSValue.arr [] [])]),
      ("criticalQuotes", JSValue.arr [] [])]) "grade" = JSValue.str "A" ∧
    (10 : Nat) < ("A long enough summary." : String).length ∧
    parseAnalysisResponse (parseAnalysisResponse
      (JSValue.obj [("grade", JSValue.str "A"),
        ("summary", JSValue.str "A long enough summary."),
        ("dirtyDozen", JSValue.obj []),
        ("highlights", JSValue.obj [("good", JSValue.arr [] []),
                                    ("bad", JSValue.arr [] [])]),
        ("criticalQuotes", JSValue.arr [] [])])) =
      parseAnalysisResponse (JSValue.obj [("grade", JSValue.str "A"),
        ("summary", JSValue.str "A long enough summary."),
        ("dirtyDozen", JSValue.obj []),
        ("highlights", JSValue.obj [("good", JSValue.arr [] []),
                                    ("bad", JSValue.arr [] [])]),
        ("criticalQuotes", JSValue.arr [] [])]) :=
  ⟨rfl, by decide,
   claim8_normalize_idempotent _ _ rfl "A" rfl (by decide)
     "A long enough summary." rfl (by decide) rfl rfl rfl rfl⟩

theorem gradeNormalize_ok_cases (parsed p' : JSValue)
    (hnn : isNullish parsed = false)
    (h : gradeNormalize parsed = Except.ok p') :
    ∃ w, jsSetField parsed "grade" w = Except.ok p' := by
  by_cases hf : jsTruthy (jsGetRaw parsed "grade") = true
  · cases hstr : jsGetRaw parsed "grade" with
    | str s =>
        have hs : s ≠ "" := by
          rw [hstr] at hf
          simpa [jsTruthy] using hf
        rw [gradeNormalize_str parsed hnn s hstr hs] at h
        by_cases hv : validGrades.contains
            (⟨s.toList.map Char.toUpper⟩ : String) = true
        · rw [if_pos hv] at h
          exact ⟨_, h⟩
        · rw [if_neg hv] at h
          exact ⟨_, h⟩
    | undefined =>
        rw [hstr] at hf
        exact absurd hf (by simp [jsTruthy])
    | null =>
        rw [hstr] at hf
        exact absurd hf (by simp [jsTruthy])
    | bool b =>
        rw [gradeNormalize_nonstr parsed hnn hf
          (by rw [hstr]; intro s hc; cases hc)] at h
        cases h
    | num m e =>
        rw [gradeNormalize_nonstr parsed hnn hf
          (by rw [hstr]; intro s hc; cases hc)] at h
        cases h
    | arr xs ps =>
        rw [gradeNormalize_nonstr parsed hnn hf
          (by rw [hstr]; intro s hc; cases hc)] at h
        cases h
    | obj fs =>
        rw [gradeNormalize_nonstr parsed hnn hf
          (by rw [hstr]; intro s hc; cases hc)] at h
        cases h
  · have hf' : jsTruthy (jsGetRaw parsed "grade") = false := by
      simpa using hf
    rw [gradeNormalize_falsy parsed hnn hf'] at h
    exact ⟨_, h⟩

/-- C9 corrected (amended to what the code does): the normalizer keeps
the parsed `dirtyDozen` verbatim whenever it is `typeof`-object, and
replaces it by `{}` otherwise — it validates nothing inside.  The
claim's invariant therefore holds only by preservation: if every finding
of the parsed reply's `dirtyDozen` already has `status` in
`{safe, unknown, warning, danger}`, then so does every finding of the
output's `dirtyDozen`; the normalizer itself never enforces it. -/
theorem claim9_dirty_dozen_amended (response parsed : JSValue)
    (hp : parsedValueOf response = Except.ok parsed)
    (hsh : (∃ fs, parsed = JSValue.obj fs) ∨
      ∃ xs ps, parsed = JSValue.arr xs ps)
    (r : JSValue) (hr : parseAnalysisBody response = Except.ok r) :
    jsGetRaw r "dirtyDozen" =
      (if jsTypeof (jsGetRaw parsed "dirtyDozen") == "object" then
        jsGetRaw parsed "dirtyDozen"
      else JSValue.obj []) ∧
    ((∀ kv ∈ jsEntries (jsGetRaw parsed "dirtyDozen"),
        jsOptGet kv.2 "status" ∈ statusOrder) →
      ∀ kv ∈ jsEntries (jsGetRaw r "dirtyDozen"),
        jsOptGet kv.2 "status" ∈ statusOrder) := by
  have hnn : isNullish parsed = false := by
    rcases hsh with ⟨fs, rfl⟩ | ⟨xs, ps, rfl⟩ <;> rfl
  have hbody : parseAnalysisSteps parsed = Except.ok r := by
    rw [← parseAnalysisBody_eq response parsed hp]
    exact hr
  have hmain : jsGetRaw r "dirtyDozen" =
      (if jsTypeof (jsGetRaw parsed "dirtyDozen") == "object" then
        jsGetRaw parsed "dirtyDozen"
      else JSValue.obj []) := by
    rcases hgn : gradeNormalize parsed with e | p'
    · rw [parseAnalysisSteps_err _ _ hgn] at hbody
      cases hbody
    · have hassem : assembleResult p' = Except.ok r := by
        rw [← parseAnalysisSteps_eq _ _ hgn]
        exact hbody
      obtain ⟨w, hset⟩ := gradeNormalize_ok_cases parsed p' hnn hgn
      obtain ⟨p'', hset', hget, hnn', hpres⟩ := jsSetGrade_spec parsed w hsh
      have hpp : p'' = p' := by
        rw [hset] at hset'
        exact Except.ok.inj hset'.symm
      subst hpp
      have hdd' : jsGetRaw p'' "dirtyDozen" = jsGetRaw parsed "dirtyDozen" :=
        hpres "dirtyDozen" rfl rfl rfl
      rw [assembleResult_ok p'' hnn'] at hassem
      rw [← Except.ok.inj hassem]
      rw [jsGetRaw_obj_cons_ne "grade" "dirtyDozen" _ _ (by decide),
        jsGetRaw_obj_cons_ne "summary" "dirtyDozen" _ _ (by decide),
        jsGetRaw_obj_head, hdd']
  refine ⟨hmain, fun hvalid kv hkv => ?_⟩
  rw [hmain] at hkv
  by_cases hty : (jsTypeof (jsGetRaw parsed "dirtyDozen") == "object") = true
  · rw [if_pos hty] at hkv
    exact hvalid kv hkv
  · rw [if_neg hty] at hkv
    simp [jsEntries, insertionSortBy] at hkv

/-- Witness for C9 (amended) at a concrete reply whose single finding
already has a valid status: it is preserved verbatim. -/
theorem claim9_witness :
    parsedValueOf (JSValue.obj [("dirtyDozen",
      JSValue.obj [("x", JSValue.obj [("status", JSValue.str "warning")])])]) =
      Except.ok (JSValue.obj [("dirtyDozen",
      JSValue.obj [("x", JSValue.obj [("status", JSValue.str "warning")])])]) ∧
    parseAnalysisBody (JSValue.obj [("dirtyDozen",
      JSValue.obj [("x", JSValue.obj [("status", JSValue.str "warning")])])]) =
      Except.ok (parseAnalysisResponse (JSValue.obj [("dirtyDozen",
      JSValue.obj [("x", JSValue.obj [("status", JSValue.str "warning")])])])) ∧
    (jsGetRaw (parseAnalysisResponse (JSValue.obj [("dirtyDozen",
        JSValue.obj [("x", JSValue.obj [("status", JSValue.str "warning")])])]))
        "dirtyDozen" =
      (if jsTypeof (jsGetRaw (JSValue.obj [("dirtyDozen",
          JSValue.obj [("x", JSValue.obj [("status", JSValue.str "warning")])])])
          "dirtyDozen") == "object" then
        jsGetRaw (JSValue.obj [("dirtyDozen",
          JSValue.obj [("x", JSValue.obj [("status", JSValue.str "warning")])])])
          "dirtyDozen"
      else JSValue.obj []) ∧
     ((∀ kv ∈ jsEntries (jsGetRaw (JSValue.obj [("dirtyDozen",
          JSValue.obj [("x", JSValue.obj [("status", JSValue.str "warning")])])])
          "dirtyDozen"),
        jsOptGet kv.2 "status" ∈ statusOrder) →
      ∀ kv ∈ jsEntries (jsGetRaw (parseAnalysisResponse (JSValue.obj
          [("dirtyDozen", JSValue.obj [("x",
            JSValue.obj [("status", JSValue.str "warning")])])]))
          "dirtyDozen"),
        jsOptGet kv.2 "status" ∈ statusOrder)) :=
  ⟨rfl, rfl,
   claim9_dirty_dozen_amended
     (JSValue.obj [("dirtyDozen",
       JSValue.obj [("x", JSValue.obj [("status", JSValue.str "warning")])])])
     (JSValue.obj [("dirtyDozen",
       JSValue.obj [("x", JSValue.obj [("status", JSValue.str "warning")])])])
     rfl (Or.inl ⟨_, rfl⟩) _ rfl⟩

theorem jsOr_pos (a b : JSValue) (h : jsTruthy a = true) : jsOr a b = a := by
  simp [jsOr, h]

theorem jsOr_neg (a b : JSValue) (h : jsTruthy a = false) : jsOr a b = b := by
  simp [jsOr, h]

theorem callLLMResponse_err_eq (resp : HttpResponse) (ed : JSValue)
    (hok : resp.ok = false)
    (hed : (jsonParse resp.bodyText).getD (JSValue.obj []) = ed)
    (hnn : isNullish ed = false) :
    callLLMResponse resp = Except.error (.error (jsOr (jsOr (jsOr
      (jsOptGet (jsGetRaw ed "error") "message") (jsGetRaw ed "message"))
      (HTTP_ERROR_MESSAGES resp.status))
      (.str ("Request failed (" ++ toString resp.status ++ ")")))) := by
  unfold callLLMResponse
  rw [if_pos (show (!resp.ok) = true by rw [hok]; rfl)]
  show (do
    let errField ← jsGetField ((jsonParse resp.bodyText).getD
      (JSValue.obj [])) "error"
    let m₁ : JSValue := jsOptGet errField "message"
    let m₂ ← jsGetField ((jsonParse resp.bodyText).getD
      (JSValue.obj [])) "message"
    let msg : JSValue := jsOr (jsOr (jsOr m₁ m₂)
      (HTTP_ERROR_MESSAGES resp.status))
      (JSValue.str ("Request failed (" ++ toString resp.status ++ ")"))
    Except.error (JSErr.error msg) : Except JSErr JSValue) = _
  rw [hed, jsGetField_ok ed "error" hnn, jsGetField_ok ed "message" hnn]
  rfl

/-- C6 corrected (amended to what the code does): on every non-success
HTTP response whose body does not parse to JSON `null`, `callLLM` throws
an `Error` whose message is resolved by priority — (1) a truthy
`error.message` or top-level `message` embedded in the error body, else
(2) the static table entry for status 400/401/403/404/429/500/502/503,
else (3) the generic `Request failed (status)` fallback — and a body
that is not valid JSON is treated as the empty object, so an HTTP 429
response with no parseable body yields exactly
`Rate limit exceeded - please wait a moment and try again`.  (A body
parsing to `null` instead raises a `TypeError` while building the
message; `JSON.parse` never yields `undefined`, so excluding nullish
parsed bodies excludes exactly the JSON-`null` case.) -/
theorem claim6_error_message_priority_amended (resp : HttpResponse)
    (ed : JSValue) (hok : resp.ok = false)
    (hed : (jsonParse resp.bodyText).getD (JSValue.obj []) = ed)
    (hnn : isNullish ed = false) :
    (jsTruthy (jsOptGet (jsGetRaw ed "error") "message") = true →
      callLLMResponse resp = Except.error (.error
        (jsOptGet (jsGetRaw ed "error") "message"))) ∧
    (jsTruthy (jsOptGet (jsGetRaw ed "error") "message") = false →
      jsTruthy (jsGetRaw ed "message") = true →
      callLLMResponse resp = Except.error (.error (jsGetRaw ed "message"))) ∧
    (jsTruthy (jsOptGet (jsGetRaw ed "error") "message") = false →
      jsTruthy (jsGetRaw ed "message") = false →
      jsTruthy (HTTP_ERROR_MESSAGES resp.status) = true →
      callLLMResponse resp = Except.error (.error
        (HTTP_ERROR_MESSAGES resp.status))) ∧
    (jsTruthy (jsOptGet (jsGetRaw ed "error") "message") = false →
      jsTruthy (jsGetRaw ed "message") = false →
      jsTruthy (HTTP_ERROR_MESSAGES resp.status) = false →
      callLLMResponse resp = Except.error (.error
        (.str ("Request failed (" ++ toString resp.status ++ ")")))) ∧
    (∀ body : String, jsonParse body = none →
      callLLMResponse ⟨false, 429, body⟩ = Except.error (.error (.str
        "Rate limit exceeded - please wait a moment and try again"))) := by
  refine ⟨?_, ?_, ?_, ?_, ?_⟩
  · intro h1
    rw [callLLMResponse_err_eq resp ed hok hed hnn]
    rw [jsOr_pos _ _ h1, jsOr_pos _ _ h1, jsOr_pos _ _ h1]
  · intro h1 h2
    rw [callLLMResponse_err_eq resp ed hok hed hnn]
    rw [jsOr_neg _ _ h1, jsOr_pos _ _ h2, jsOr_pos _ _ h2]
  · intro h1 h2 h3
    rw [callLLMResponse_err_eq resp ed hok hed hnn]
    rw [jsOr_neg _ _ h1, jsOr_neg _ _ h2, jsOr_pos _ _ h3]
  · intro h1 h2 h3
    rw [callLLMResponse_err_eq resp ed hok hed hnn]
    rw [jsOr_neg _ _ h1, jsOr_neg _ _ h2, jsOr_neg _ _ h3]
  · intro body hbody
    have h := callLLMResponse_err_eq ⟨false, 429, body⟩ (JSValue.obj [])
      rfl (by rw [show jsonParse body = none from hbody]; rfl) rfl
    rw [h]
    rfl

/-- Witness for C6 (amended) at the concrete response
`{ok: false, status: 429, body: ""}` (an unparseable body): the table
entry for 429 is selected. -/
theorem claim6_witness :
    ((false : Bool) = false) ∧
    ((jsonParse "").getD (JSValue.obj []) = JSValue.obj []) ∧
    (isNullish (JSValue.obj []) = false) ∧
    jsTruthy (jsOptGet (jsGetRaw (JSValue.obj []) "error") "message") =
      false ∧
    jsTruthy (jsGetRaw (JSValue.obj []) "message") = false ∧
    jsTruthy (HTTP_ERROR_MESSAGES 429) = true ∧
    callLLMResponse ⟨false, 429, ""⟩ = Except.error (.error
      (HTTP_ERROR_MESSAGES 429)) :=
  ⟨rfl, rfl, rfl, rfl, rfl, rfl,
   (claim6_error_message_priority_amended ⟨false, 429, ""⟩ (JSValue.obj [])
      rfl rfl rfl).2.2.1 rfl rfl rfl⟩
